import Mathlib

/-!
Verification of the file-backed CRUD persistence layer of a small
TypeScript/Express application managing two record types: calculators
(src/managers/calculatorManager.ts, keyed by `oid`) and notes
(the note manager, keyed by `title`).  Each manager owns one JSON file
holding a single JSON array of records; every operation re-reads the file,
mutates the in-memory array and writes back the whole array.

The file's content is embedded abstractly as `FileContent`: the five
observationally distinct cases of the `readAll`/`loadNotes` code path
(missing file, empty-or-whitespace file, invalid JSON, a JSON value that
is not an array, and a JSON array of records).  Stateful manager methods
become explicit state passing: each operation takes the current file
content and returns its result together with the new file content.

A second, concrete string-level model of `writeAll`/`saveNotes`
(`JSON.stringify(·, null, 2)`) and of the read path on its output is
developed further down for the persistence round-trip property.
-/

set_option linter.unusedVariables false
set_option maxRecDepth 4096

/-- A calculator record, shape from src/models/calculator.ts:
`oid: number, manufacturer: string, grade: number, batteryType: number`.
The numeric fields are modelled as `Int`: every value the controller can
pass to the manager is produced by its `parseInt`, which only lets exact
integers through. -/
structure Calculator where
  oid : Int
  manufacturer : String
  grade : Int
  batteryType : Int
deriving DecidableEq, Repr

/-- A note record, shape from src/models/note.ts:
`title: string, body: string`. -/
structure Note where
  title : String
  body : String
deriving DecidableEq, Repr

/-- Abstract content of the JSON backing file, distinguishing exactly the
cases the managers' read path distinguishes: a missing file, a file whose
raw text trims to the empty string, text that is not valid JSON, valid
JSON that is not an array, and a JSON array of records. -/
inductive FileContent (E : Type) where
  | missing
  | blank
  | invalid
  | nonArray
  | array (xs : List E)
deriving DecidableEq, Repr

/-- The `ensureStorage` method of both managers: if the file is missing it
is created containing `[]` (a JSON array of no records); otherwise the
file is left untouched. -/
def FileContent.ensure {E : Type} : FileContent E → FileContent E
  | .missing => .array []
  | fc => fc

/-- The parse step of the read path: a JSON array yields its records;
blank, invalid and non-array content all degrade to the empty list
(`if (!raw.trim()) return []`, the `catch` branch, and the
`Array.isArray` guard respectively). -/
def FileContent.records {E : Type} : FileContent E → List E
  | .array xs => xs
  | _ => []

/-- Replace the first element satisfying `p` by its image under `f`,
leaving every other element in place.  This captures the JavaScript idiom
of `find`ing an element of an array and mutating it in place. -/
def updateFirst {α : Type} (p : α → Bool) (f : α → α) : List α → List α
  | [] => []
  | x :: xs => if p x then f x :: xs else x :: updateFirst p f xs

namespace CalculatorManager

/-- `readAll` (calculatorManager.ts lines 18-40): `ensureStorage` then
read and parse, falling back to an empty array.  Returns the parsed
records together with the file content after the call (`ensureStorage`
creates a missing file as `[]`). -/
def readAll (fc : FileContent Calculator) : List Calculator × FileContent Calculator :=
  let fc1 := fc.ensure
  (fc1.records, fc1)

/-- `getCalculators`: returns the latest set of calculators. -/
def getCalculators (fc : FileContent Calculator) : List Calculator × FileContent Calculator :=
  readAll fc

/-- `getCalculatorByOid`: re-reads, then returns the first calculator
whose `oid` matches, `none` modelling `null`. -/
def getCalculatorByOid (oid : Int) (fc : FileContent Calculator) :
    Option Calculator × FileContent Calculator :=
  let r := readAll fc
  (r.1.find? (fun calculator => calculator.oid == oid), r.2)

/-- `writeAll`: serializes the full array and overwrites the entire file;
afterwards the file holds exactly that JSON array. -/
def writeAll (calculators : List Calculator) : FileContent Calculator :=
  FileContent.array calculators

/-- `addCalculator` (lines 61-90): re-read, reject a duplicate `oid` with
`null` and no write, otherwise construct the record from the supplied
fields, push it and write the full array back. -/
def addCalculator (oid : Int) (manufacturer : String) (grade : Int) (batteryType : Int)
    (fc : FileContent Calculator) : Option Calculator × FileContent Calculator :=
  let r := readAll fc
  match r.1.find? (fun calculator => calculator.oid == oid) with
  | some _ => (none, r.2)
  | none =>
      let newCalculator : Calculator := ⟨oid, manufacturer, grade, batteryType⟩
      (some newCalculator, writeAll (r.1 ++ [newCalculator]))

/-- `editCalculator` (lines 93-116): re-read, locate by `oid`; if absent
return `null` without writing; if present overwrite `manufacturer`,
`grade` and `batteryType` of the found element in place (never `oid`),
write the full array back and return the updated record. -/
def editCalculator (oid : Int) (manufacturer : String) (grade : Int) (batteryType : Int)
    (fc : FileContent Calculator) : Option Calculator × FileContent Calculator :=
  let r := readAll fc
  let upd : Calculator → Calculator := fun item =>
    { item with manufacturer := manufacturer, grade := grade, batteryType := batteryType }
  match r.1.find? (fun item => item.oid == oid) with
  | none => (none, r.2)
  | some c =>
      (some (upd c), writeAll (updateFirst (fun item => item.oid == oid) upd r.1))

/-- `deleteCalculator` (lines 119-135): re-read, filter out the matching
`oid`; if nothing was removed return `false` with no write, otherwise
write the filtered list and return `true`. -/
def deleteCalculator (oid : Int) (fc : FileContent Calculator) :
    Bool × FileContent Calculator :=
  let r := readAll fc
  let remaining := r.1.filter (fun calculator => calculator.oid != oid)
  if remaining.length = r.1.length then (false, r.2)
  else (true, writeAll remaining)

end CalculatorManager

namespace NoteManager

/-- `loadNotes` (note manager lines 22-46): `ensureStorage` then read and
parse, falling back to an empty list.  The in-memory `notes` cache is
overwritten on every load and re-read by every public operation, so the
observable state is the file content alone. -/
def loadNotes (fc : FileContent Note) : List Note × FileContent Note :=
  let fc1 := fc.ensure
  (fc1.records, fc1)

/-- `getNotes`: always returns the latest on-disk state. -/
def getNotes (fc : FileContent Note) : List Note × FileContent Note :=
  loadNotes fc

/-- `getNoteByTitle`: reload, then return the first note whose `title`
matches, `none` modelling `null`. -/
def getNoteByTitle (title : String) (fc : FileContent Note) :
    Option Note × FileContent Note :=
  let r := loadNotes fc
  (r.1.find? (fun note => note.title == title), r.2)

/-- `saveNotes`: serializes the full array and overwrites the file. -/
def saveNotes (notes : List Note) : FileContent Note :=
  FileContent.array notes

/-- `addNote` (lines 64-80): reload, reject a duplicate `title` with
`null` and no write, otherwise construct the note, push it and persist. -/
def addNote (title : String) (body : String) (fc : FileContent Note) :
    Option Note × FileContent Note :=
  let r := loadNotes fc
  match r.1.find? (fun note => note.title == title) with
  | some _ => (none, r.2)
  | none =>
      let newNote : Note := ⟨title, body⟩
      (some newNote, saveNotes (r.1 ++ [newNote]))

/-- `updateNote` (lines 83-97): reload, locate by `title`; if absent
return `null` without writing; if present overwrite `body` of the found
element in place (never `title`), persist and return the updated note. -/
def updateNote (title : String) (body : String) (fc : FileContent Note) :
    Option Note × FileContent Note :=
  let r := loadNotes fc
  let upd : Note → Note := fun item => { item with body := body }
  match r.1.find? (fun item => item.title == title) with
  | none => (none, r.2)
  | some n =>
      (some (upd n), saveNotes (updateFirst (fun item => item.title == title) upd r.1))

/-- `removeNote` (lines 100-113): reload, filter out the matching
`title`; if nothing was removed return `false` with no write, otherwise
persist the filtered list and return `true`. -/
def removeNote (title : String) (fc : FileContent Note) : Bool × FileContent Note :=
  let r := loadNotes fc
  let remaining := r.1.filter (fun note => note.title != title)
  if remaining.length = r.1.length then (false, r.2)
  else (true, saveNotes remaining)

end NoteManager

/-- Model of the JavaScript builtin String.prototype.trim: drop leading
and trailing whitespace characters.  JavaScript trims the full Unicode
whitespace set; the model uses Lean's `Char.isWhitespace` (space, tab,
carriage return, line feed), which agrees with it on all inputs appearing
in this development. -/
def jsTrim (s : String) : String :=
  String.mk (((s.data.dropWhile Char.isWhitespace).reverse.dropWhile
    Char.isWhitespace).reverse)

namespace CalculatorController

/-- Outcome of the JavaScript builtin Number(...) applied to a trimmed,
nonempty string, as far as the controller observes it through
Number.isInteger: an exact integer, a finite non-integer, or NaN. -/
inductive JsNum where
  | int (n : Int)
  | nonInt
  | nan
deriving DecidableEq, Repr

/-- Value of a list of decimal digit characters. -/
def digitsVal (ds : List Char) : Nat :=
  ds.foldl (fun a c => 10 * a + (c.toNat - 48)) 0

/-- Model of the JavaScript builtin Number(...) on an already-trimmed,
nonempty string, restricted to plain decimal literals: an optional sign,
integer digits and an optional fractional part.  Exotic numeric syntax
also accepted by Number (hexadecimal, exponents, Infinity) is outside the
model and mapped to NaN; all such values either are exact integers (and
then the range checks below decide acceptance exactly as for plain
literals) or fail Number.isInteger just like NaN does. -/
def jsNumber (s : String) : JsNum :=
  let signed : Bool × List Char :=
    match s.data with
    | '-' :: r => (true, r)
    | '+' :: r => (false, r)
    | r => (false, r)
  let ds := signed.2.takeWhile Char.isDigit
  let rest := signed.2.dropWhile Char.isDigit
  let intVal : JsNum :=
    if signed.1 then JsNum.int (-(digitsVal ds : Int)) else JsNum.int (digitsVal ds)
  match rest with
  | [] => if ds.isEmpty then JsNum.nan else intVal
  | '.' :: fr =>
      if fr.all Char.isDigit then
        if ds.isEmpty && fr.isEmpty then JsNum.nan
        else if fr.all (fun c => c == '0') then intVal
        else JsNum.nonInt
      else JsNum.nan
  | _ => JsNum.nan

/-- The controller's private parseInt (calculatorController.ts lines
59-83) applied to a form field.  Fields of CalculatorFormBody are typed
`string | undefined` (express.urlencoded delivers strings), so the
`typeof value === "number"` branch is unreachable and the input is
`Option String`: `undefined` is rejected, a string is trimmed, the empty
string is rejected, and otherwise Number(trimmed) must be an exact
integer. -/
def parseIntOfField (value : Option String) : Option Int :=
  match value with
  | none => none
  | some s =>
      let trimmed := jsTrim s
      if trimmed = "" then none
      else
        match jsNumber trimmed with
        | .int n => some n
        | _ => none

/-- Validation limits (lines 41-44). -/
def gradeMin : Int := 0

/-- Upper bound of the grade range. -/
def gradeMax : Int := 10

/-- Lower bound of the battery type range. -/
def batteryMin : Int := 1

/-- Upper bound of the battery type range. -/
def batteryMax : Int := 3

/-- The single generic validation failure message (lines 46-48). -/
def genericError : String := "Invalid input. Please check the form fields."

/-- isIntInRange (lines 86-88); the Number.isInteger conjunct is vacuous
once values are integers. -/
def isIntInRange (value lo hi : Int) : Bool :=
  lo ≤ value && value ≤ hi

/-- validateFields (lines 91-124): reject if the manufacturer is empty or
either numeric field failed to parse, then reject if either numeric field
is out of its range, else accept. -/
def validateFields (manufacturer : String) (grade batteryType : Option Int) :
    Bool × String :=
  match grade, batteryType with
  | some g, some b =>
      if manufacturer = "" then (false, genericError)
      else if isIntInRange g gradeMin gradeMax && isIntInRange b batteryMin batteryMax then
        (true, "")
      else (false, genericError)
  | _, _ => (false, genericError)

/-- The submitted form body (interface CalculatorFormBody): each field is
`string | undefined`. -/
structure CalculatorFormBody where
  oid : Option String := none
  manufacturer : Option String := none
  grade : Option String := none
  batteryType : Option String := none
deriving DecidableEq, Repr

/-- Result of parseFormBody (lines 127-157): raw values preserved for
re-display plus cleaned and parsed values. -/
structure ParsedCalculatorForm where
  oidRaw : String
  gradeRaw : String
  batteryTypeRaw : String
  oid : Option Int
  manufacturer : String
  grade : Option Int
  batteryType : Option Int
deriving DecidableEq, Repr

/-- parseFormBody: preserve raw inputs (`?? ""`), trim the manufacturer,
parse the numeric fields. -/
def parseFormBody (body : CalculatorFormBody) : ParsedCalculatorForm :=
  { oidRaw := body.oid.getD ""
    gradeRaw := body.grade.getD ""
    batteryTypeRaw := body.batteryType.getD ""
    manufacturer := (body.manufacturer.map jsTrim).getD ""
    oid := parseIntOfField body.oid
    grade := parseIntOfField body.grade
    batteryType := parseIntOfField body.batteryType }

/-- The four form values handed to the calculatorForm template by
renderForm (presentation-only options such as mode, action and page title
are omitted). -/
structure FormValues where
  oid : String
  manufacturer : String
  grade : String
  batteryType : String
deriving DecidableEq, Repr

/-- Observable HTTP response of a controller action: re-render the form
with values and an optional error, or redirect. -/
inductive Response where
  | render (values : FormValues) (error : Option String)
  | redirect (target : String)
deriving DecidableEq, Repr

/-- postCreate (lines 188-249): parse the body, validate; on failure
re-render echoing `oidRaw`, the trimmed manufacturer, `gradeRaw` and
`batteryTypeRaw` without touching the manager; on success call
addCalculator, re-rendering with the stringified parsed values if the oid
is a duplicate, else redirect. -/
def postCreate (body : CalculatorFormBody) (fc : FileContent Calculator) :
    Response × FileContent Calculator :=
  let parsedForm := parseFormBody body
  let validation := validateFields parsedForm.manufacturer parsedForm.grade parsedForm.batteryType
  match parsedForm.oid, parsedForm.grade, parsedForm.batteryType with
  | some oid, some grade, some batteryType =>
      if validation.1 then
        let r := CalculatorManager.addCalculator oid parsedForm.manufacturer grade batteryType fc
        match r.1 with
        | some _ => (Response.redirect "/calculators", r.2)
        | none =>
            (Response.render ⟨toString oid, parsedForm.manufacturer, toString grade,
              toString batteryType⟩ (some genericError), r.2)
      else
        (Response.render ⟨parsedForm.oidRaw, parsedForm.manufacturer, parsedForm.gradeRaw,
          parsedForm.batteryTypeRaw⟩ (some genericError), fc)
  | _, _, _ =>
      (Response.render ⟨parsedForm.oidRaw, parsedForm.manufacturer, parsedForm.gradeRaw,
        parsedForm.batteryTypeRaw⟩ (some genericError), fc)

/-- postEdit (lines 310-381): parse the oid route parameter, redirecting
if invalid; parse and validate the body; on validation failure re-render
(after a read of the existing record, which may lazily initialize
storage) without calling editCalculator; on success call editCalculator
and redirect either way. -/
def postEdit (oidParam : String) (body : CalculatorFormBody) (fc : FileContent Calculator) :
    Response × FileContent Calculator :=
  match parseIntOfField (some oidParam) with
  | none => (Response.redirect "/calculators", fc)
  | some parsedOid =>
      let parsedForm := parseFormBody body
      let validation :=
        validateFields parsedForm.manufacturer parsedForm.grade parsedForm.batteryType
      if validation.1 then
        match parsedForm.grade, parsedForm.batteryType with
        | some grade, some batteryType =>
            let r := CalculatorManager.editCalculator parsedOid parsedForm.manufacturer
              grade batteryType fc
            (Response.redirect "/calculators", r.2)
        | _, _ =>
            -- unreachable: validation succeeds only when both fields parsed
            (Response.redirect "/calculators", fc)
      else
        let g := CalculatorManager.getCalculatorByOid parsedOid fc
        (Response.render ⟨toString parsedOid, parsedForm.manufacturer, parsedForm.gradeRaw,
          parsedForm.batteryTypeRaw⟩ (some genericError), g.2)

end CalculatorController

namespace NoteController

/-- The submitted note form body (interface NoteFormBody). -/
structure NoteFormBody where
  title : Option String := none
  body : Option String := none
deriving DecidableEq, Repr

/-- Observable response of a note controller action: renderForm passes
`noteTitle`, `noteBody` and an optional error to the template. -/
inductive Response where
  | render (noteTitle : String) (noteBody : String) (error : Option String)
  | redirect (target : String)
deriving DecidableEq, Repr

/-- postCreate (noteController.ts lines 60-95): trim title and body,
reject if either is empty, echoing the cleaned values; otherwise call
addNote, re-rendering the cleaned values on a duplicate title, else
redirect. -/
def postCreate (body : NoteFormBody) (fc : FileContent Note) :
    Response × FileContent Note :=
  let cleanedTitle := (body.title.map jsTrim).getD ""
  let cleanedBody := (body.body.map jsTrim).getD ""
  if cleanedTitle = "" || cleanedBody = "" then
    (Response.render cleanedTitle cleanedBody (some "Both title and body are required."), fc)
  else
    let r := NoteManager.addNote cleanedTitle cleanedBody fc
    match r.1 with
    | none =>
        (Response.render cleanedTitle cleanedBody
          (some "A note with that title already exists."), r.2)
    | some _ => (Response.redirect "/notes/index", r.2)

end NoteController

/-- One manager-level calculator operation, for stating invariants over
arbitrary operation sequences. -/
inductive CalcOp where
  | add (oid : Int) (manufacturer : String) (grade batteryType : Int)
  | edit (oid : Int) (manufacturer : String) (grade batteryType : Int)
  | delete (oid : Int)
deriving DecidableEq, Repr

/-- File content after one calculator operation. -/
def applyCalcOp (fc : FileContent Calculator) : CalcOp → FileContent Calculator
  | .add oid m g b => (CalculatorManager.addCalculator oid m g b fc).2
  | .edit oid m g b => (CalculatorManager.editCalculator oid m g b fc).2
  | .delete oid => (CalculatorManager.deleteCalculator oid fc).2

/-- File content after a sequence of calculator operations. -/
def applyCalcOps (fc : FileContent Calculator) : List CalcOp → FileContent Calculator
  | [] => fc
  | op :: ops => applyCalcOps (applyCalcOp fc op) ops

/-- One manager-level note operation. -/
inductive NoteOp where
  | add (title body : String)
  | update (title body : String)
  | remove (title : String)
deriving DecidableEq, Repr

/-- File content after one note operation. -/
def applyNoteOp (fc : FileContent Note) : NoteOp → FileContent Note
  | .add t b => (NoteManager.addNote t b fc).2
  | .update t b => (NoteManager.updateNote t b fc).2
  | .remove t => (NoteManager.removeNote t fc).2

/-- File content after a sequence of note operations. -/
def applyNoteOps (fc : FileContent Note) : List NoteOp → FileContent Note
  | [] => fc
  | op :: ops => applyNoteOps (applyNoteOp fc op) ops

/-- Key column of a calculator collection. -/
def calcKeys (l : List Calculator) : List Int := l.map Calculator.oid

/-- Key column of a note collection. -/
def noteKeys (l : List Note) : List String := l.map Note.title


namespace Codec

/-- Lowercase hexadecimal digit characters, as produced by JSON.stringify
for control-character escapes; indices below ten double as decimal digit
characters. -/
def hexDigitChar : Nat → Char
  | 0 => '0'
  | 1 => '1'
  | 2 => '2'
  | 3 => '3'
  | 4 => '4'
  | 5 => '5'
  | 6 => '6'
  | 7 => '7'
  | 8 => '8'
  | 9 => '9'
  | 10 => 'a'
  | 11 => 'b'
  | 12 => 'c'
  | 13 => 'd'
  | 14 => 'e'
  | _ => 'f'

/-- Value of one hexadecimal digit character, as read by JSON.parse in a
\u escape. -/
def hexVal (c : Char) : Option Nat :=
  if '0' ≤ c ∧ c ≤ '9' then some (c.toNat - 48)
  else if 'a' ≤ c ∧ c ≤ 'f' then some (c.toNat - 87)
  else if 'A' ≤ c ∧ c ≤ 'F' then some (c.toNat - 55)
  else none

/-- JSON.stringify escaping of one character of a string literal: quote
and backslash get two-character escapes, the five named control
characters get theirs, any other control character below 0x20 gets a
\u00xx escape, and every other character is emitted unchanged. -/
def escapeChar (c : Char) : List Char :=
  if c = '\"' then ['\\', '\"']
  else if c = '\\' then ['\\', '\\']
  else if c.toNat = 8 then ['\\', 'b']
  else if c.toNat = 12 then ['\\', 'f']
  else if c = '\n' then ['\\', 'n']
  else if c.toNat = 13 then ['\\', 'r']
  else if c = '\t' then ['\\', 't']
  else if c.toNat < 32 then
    ['\\', 'u', '0', '0', hexDigitChar (c.toNat / 16), hexDigitChar (c.toNat % 16)]
  else [c]

/-- JSON.stringify escaping of a whole string body (without the enclosing
quotes). -/
def escapeList (s : List Char) : List Char := (s.map escapeChar).flatten

/-- Decimal digits, accumulator and fuel form: structural recursion on
the fuel keeps the definition kernel-computable; any fuel above the
number of digits yields the same result. -/
def natDigitsAux (fuel n : Nat) (acc : List Char) : List Char :=
  match fuel with
  | 0 => acc
  | fuel + 1 =>
      if n < 10 then hexDigitChar n :: acc
      else natDigitsAux fuel (n / 10) (hexDigitChar (n % 10) :: acc)

/-- Decimal digits of a natural number, most significant first. -/
def natDigits (n : Nat) : List Char := natDigitsAux (n + 1) n []

/-- The text JSON.stringify produces for an integral number (integers of
magnitude below 10^21, which covers every value this application can
store, print in plain decimal). -/
def intChars (n : Int) : List Char :=
  if n < 0 then '-' :: natDigits n.natAbs else natDigits n.toNat

/-- Join pre-rendered array items with the separator ",\n" that
JSON.stringify(·, null, 2) places between array elements. -/
def sepJoin : List (List Char) → List Char
  | [] => []
  | [x] => x
  | x :: xs => x ++ ',' :: '\n' :: sepJoin xs

/-- The characters JSON.stringify(·, null, 2) produces for one calculator
record nested one level deep inside the top-level array. -/
def calcItemChars (c : Calculator) : List Char :=
  "  \x7b\n    \"oid\": ".data ++ intChars c.oid ++
  ",\n    \"manufacturer\": \"".data ++ escapeList c.manufacturer.data ++
  "\",\n    \"grade\": ".data ++ intChars c.grade ++
  ",\n    \"batteryType\": ".data ++ intChars c.batteryType ++
  "\n  \x7d".data

/-- The `data` string writeAll computes with JSON.stringify(calculators,
null, 2) and writes to the storage file. -/
def writeAllString (l : List Calculator) : String :=
  match l with
  | [] => "[]"
  | _ => String.mk ('[' :: '\n' :: (sepJoin (l.map calcItemChars) ++ ['\n', ']']))

/-- The characters JSON.stringify(·, null, 2) produces for one note
record. -/
def noteItemChars (n : Note) : List Char :=
  "  \x7b\n    \"title\": \"".data ++ escapeList n.title.data ++
  "\",\n    \"body\": \"".data ++ escapeList n.body.data ++
  "\"\n  \x7d".data

/-- The `data` string saveNotes computes with JSON.stringify(this.notes,
null, 2). -/
def saveNotesString (l : List Note) : String :=
  match l with
  | [] => "[]"
  | _ => String.mk ('[' :: '\n' :: (sepJoin (l.map noteItemChars) ++ ['\n', ']']))

/-- Consume an exact literal character sequence, as JSON.parse does for
the fixed punctuation of the storage format. -/
def dropLit : List Char → List Char → Option (List Char)
  | [], cs => some cs
  | p :: ps, c :: cs => if c = p then dropLit ps cs else none
  | _ :: _, [] => none

/-- Consume a maximal run of decimal digits, accumulating their value:
the number-scanning loop of JSON.parse. -/
def parseNatAux : List Char → Nat → Nat × List Char
  | [], acc => (acc, [])
  | c :: cs, acc =>
      if c.isDigit then parseNatAux cs (10 * acc + (c.toNat - 48)) else (acc, c :: cs)

/-- Parse an optionally negated integer numeral. -/
def parseIntChars (cs : List Char) : Option (Int × List Char) :=
  match cs with
  | [] => none
  | c :: cs2 =>
      if c = '-' then
        match cs2 with
        | [] => none
        | d :: _ =>
            if d.isDigit then
              let r := parseNatAux cs2 0
              some (-(r.1 : Int), r.2)
            else none
      else if c.isDigit then
        let r := parseNatAux (c :: cs2) 0
        some ((r.1 : Int), r.2)
      else none

/-- Decode a JSON string literal body after its opening quote, exactly as
JSON.parse does: plain characters are kept, backslash escapes (including
\u hex escapes) are decoded, and the first unescaped quote ends the
literal.  Returns the decoded characters and the remaining input. -/
def parseStrAux : List Char → List Char → Option (List Char × List Char)
  | [], _ => none
  | c :: cs, acc =>
      if c = '\"' then some (acc.reverse, cs)
      else if c = '\\' then
        match cs with
        | [] => none
        | e :: cs2 =>
            if e = '\"' then parseStrAux cs2 ('\"' :: acc)
            else if e = '\\' then parseStrAux cs2 ('\\' :: acc)
            else if e = '/' then parseStrAux cs2 ('/' :: acc)
            else if e = 'b' then parseStrAux cs2 (Char.ofNat 8 :: acc)
            else if e = 'f' then parseStrAux cs2 (Char.ofNat 12 :: acc)
            else if e = 'n' then parseStrAux cs2 ('\n' :: acc)
            else if e = 'r' then parseStrAux cs2 (Char.ofNat 13 :: acc)
            else if e = 't' then parseStrAux cs2 ('\t' :: acc)
            else if e = 'u' then
              match cs2 with
              | h1 :: h2 :: h3 :: h4 :: cs3 =>
                  match hexVal h1, hexVal h2, hexVal h3, hexVal h4 with
                  | some v1, some v2, some v3, some v4 =>
                      parseStrAux cs3 (Char.ofNat (((v1 * 16 + v2) * 16 + v3) * 16 + v4) :: acc)
                  | _, _, _, _ => none
              | _ => none
            else none
      else parseStrAux cs (c :: acc)

/-- Parse one calculator object of the storage format. -/
def parseCalcItem (cs : List Char) : Option (Calculator × List Char) := do
  let cs ← dropLit "  \x7b\n    \"oid\": ".data cs
  let (oid, cs) ← parseIntChars cs
  let cs ← dropLit ",\n    \"manufacturer\": \"".data cs
  let (m, cs) ← parseStrAux cs []
  let cs ← dropLit ",\n    \"grade\": ".data cs
  let (g, cs) ← parseIntChars cs
  let cs ← dropLit ",\n    \"batteryType\": ".data cs
  let (b, cs) ← parseIntChars cs
  let cs ← dropLit "\n  \x7d".data cs
  pure (⟨oid, String.mk m, g, b⟩, cs)

/-- Parse a nonempty ",\n"-separated run of calculator objects; the fuel
bounds the number of items by the input length. -/
def parseCalcItemsAux : Nat → List Char → Option (List Calculator × List Char)
  | 0, _ => none
  | fuel + 1, cs => do
      let (c, cs2) ← parseCalcItem cs
      match cs2 with
      | ',' :: '\n' :: cs3 => do
          let (rest, cs4) ← parseCalcItemsAux fuel cs3
          pure (c :: rest, cs4)
      | _ => pure ([c], cs2)

/-- Parse a whole calculator storage file: either the empty array "[]" or
a bracketed, indented item list, exactly the shapes writeAll emits. -/
def parseCalcFile (s : String) : Option (List Calculator) :=
  match s.data with
  | ['[', ']'] => some []
  | '[' :: '\n' :: cs => do
      let (items, rest) ← parseCalcItemsAux (cs.length + 1) cs
      match rest with
      | ['\n', ']'] => pure items
      | _ => none
  | _ => none

/-- Parse one note object of the storage format. -/
def parseNoteItem (cs : List Char) : Option (Note × List Char) := do
  let cs ← dropLit "  \x7b\n    \"title\": \"".data cs
  let (t, cs) ← parseStrAux cs []
  let cs ← dropLit ",\n    \"body\": \"".data cs
  let (b, cs) ← parseStrAux cs []
  let cs ← dropLit "\n  \x7d".data cs
  pure (⟨String.mk t, String.mk b⟩, cs)

/-- Parse a nonempty ",\n"-separated run of note objects. -/
def parseNoteItemsAux : Nat → List Char → Option (List Note × List Char)
  | 0, _ => none
  | fuel + 1, cs => do
      let (n, cs2) ← parseNoteItem cs
      match cs2 with
      | ',' :: '\n' :: cs3 => do
          let (rest, cs4) ← parseNoteItemsAux fuel cs3
          pure (n :: rest, cs4)
      | _ => pure ([n], cs2)

/-- Parse a whole note storage file. -/
def parseNotesFile (s : String) : Option (List Note) :=
  match s.data with
  | ['[', ']'] => some []
  | '[' :: '\n' :: cs => do
      let (items, rest) ← parseNoteItemsAux (cs.length + 1) cs
      match rest with
      | ['\n', ']'] => pure items
      | _ => none
  | _ => none

/-- The read path of readAll (calculatorManager.ts lines 18-40) as a
function of the raw file text: `none` models a missing file, healed by
ensureStorage to "[]" before reading; otherwise a whitespace-only text
reads as no records, and the parse result stands in for JSON.parse plus
the Array.isArray guard, with any failure degrading to no records. -/
def readAllOfRaw (raw : Option String) : List Calculator :=
  match raw with
  | none => []
  | some s =>
      if jsTrim s = "" then []
      else
        match parseCalcFile s with
        | some xs => xs
        | none => []

/-- The read path of loadNotes as a function of the raw file text. -/
def loadNotesOfRaw (raw : Option String) : List Note :=
  match raw with
  | none => []
  | some s =>
      if jsTrim s = "" then []
      else
        match parseNotesFile s with
        | some xs => xs
        | none => []

end Codec

/-! Helper lemmas about the abstract file content and list operations. -/

theorem FileContent.records_ensure {E : Type} (fc : FileContent E) :
    fc.ensure.records = fc.records := by
  cases fc <;> rfl

theorem FileContent.records_array {E : Type} (xs : List E) :
    (FileContent.array xs : FileContent E).records = xs := rfl

theorem FileContent.ensure_of_records_ne_nil {E : Type} {fc : FileContent E}
    (h : fc.records ≠ []) : fc.ensure = fc := by
  cases fc <;> simp_all [FileContent.records, FileContent.ensure]

theorem map_updateFirst {α β : Type} {p : α → Bool} {f : α → α} (g : α → β)
    (hg : ∀ x, g (f x) = g x) (l : List α) :
    (updateFirst p f l).map g = l.map g := by
  induction l with
  | nil => rfl
  | cons x xs ih =>
      cases hx : p x <;> simp [updateFirst, hx, hg, ih]

theorem find?_updateFirst {α : Type} {p : α → Bool} {f : α → α}
    (hf : ∀ x, p x = true → p (f x) = true) (l : List α) :
    (updateFirst p f l).find? p = (l.find? p).map f := by
  induction l with
  | nil => rfl
  | cons x xs ih =>
      cases hx : p x with
      | true => simp [updateFirst, hx, List.find?_cons_of_pos, hf x hx]
      | false => simp [updateFirst, hx, List.find?_cons_of_neg, ih]

theorem updateFirst_eq_map {α : Type} {p : α → Bool} {f : α → α} (l : List α)
    (h : l.Pairwise (fun a b => p a = true → p b = false)) :
    updateFirst p f l = l.map fun x => if p x then f x else x := by
  induction l with
  | nil => rfl
  | cons x xs ih =>
      rw [List.pairwise_cons] at h
      cases hx : p x with
      | true =>
          have hall : ∀ b ∈ xs, p b = false := fun b hb => h.1 b hb hx
          have : xs.map (fun x => if p x then f x else x) = xs := by
            conv_rhs => rw [← List.map_id xs]
            exact List.map_congr_left (fun b hb => by simp [hall b hb, id])
          simp [updateFirst, hx, this]
      | false => simp [updateFirst, hx, ih h.2]

theorem filter_length_eq_iff {α : Type} {q : α → Bool} {l : List α} :
    (l.filter q).length = l.length ↔ ∀ x ∈ l, q x = true := by
  constructor
  · intro h
    exact List.filter_eq_self.mp (List.Sublist.eq_of_length (List.filter_sublist l) h)
  · intro h
    rw [List.filter_eq_self.mpr h]

/-! Per-operation behaviour of the calculator manager. -/

namespace CalculatorManager

theorem readAll_eq (fc : FileContent Calculator) :
    readAll fc = (fc.records, fc.ensure) := by
  cases fc <;> rfl

theorem getCalculators_eq (fc : FileContent Calculator) :
    getCalculators fc = (fc.records, fc.ensure) := readAll_eq fc

theorem getCalculatorByOid_eq (oid : Int) (fc : FileContent Calculator) :
    getCalculatorByOid oid fc =
      (fc.records.find? (fun c => c.oid == oid), fc.ensure) := by
  cases fc <;> rfl

theorem addCalculator_dup {oid : Int} {m : String} {g b : Int}
    {fc : FileContent Calculator} (h : ∃ c ∈ fc.records, c.oid = oid) :
    addCalculator oid m g b fc = (none, fc) := by
  obtain ⟨c, hc, hco⟩ := h
  have hens : fc.ensure = fc :=
    FileContent.ensure_of_records_ne_nil (List.ne_nil_of_mem hc)
  have hsome : (fc.records.find? (fun c => c.oid == oid)).isSome := by
    rw [List.find?_isSome]
    exact ⟨c, hc, by simp [hco]⟩
  obtain ⟨x, hx⟩ := Option.isSome_iff_exists.mp hsome
  simp [addCalculator, readAll_eq, hx, hens]

theorem addCalculator_new {oid : Int} {m : String} {g b : Int}
    {fc : FileContent Calculator} (h : ∀ c ∈ fc.records, c.oid ≠ oid) :
    addCalculator oid m g b fc =
      (some ⟨oid, m, g, b⟩, .array (fc.records ++ [⟨oid, m, g, b⟩])) := by
  have hfind : fc.records.find? (fun c => c.oid == oid) = none :=
    List.find?_eq_none.mpr (fun x hx => by simp [h x hx])
  simp [addCalculator, readAll_eq, hfind, writeAll]

theorem editCalculator_none {oid : Int} {m : String} {g b : Int}
    {fc : FileContent Calculator} (h : ∀ c ∈ fc.records, c.oid ≠ oid) :
    editCalculator oid m g b fc = (none, fc.ensure) := by
  have hfind : fc.records.find? (fun c => c.oid == oid) = none :=
    List.find?_eq_none.mpr (fun x hx => by simp [h x hx])
  simp [editCalculator, readAll_eq, hfind]

theorem editCalculator_some {oid : Int} {m : String} {g b : Int} {c : Calculator}
    {fc : FileContent Calculator}
    (h : fc.records.find? (fun x => x.oid == oid) = some c) :
    editCalculator oid m g b fc =
      (some { c with manufacturer := m, grade := g, batteryType := b },
        .array (updateFirst (fun x => x.oid == oid)
          (fun x => { x with manufacturer := m, grade := g, batteryType := b })
          fc.records)) := by
  simp [editCalculator, readAll_eq, h, writeAll]

theorem deleteCalculator_miss {oid : Int} {fc : FileContent Calculator}
    (h : ∀ c ∈ fc.records, c.oid ≠ oid) :
    deleteCalculator oid fc = (false, fc.ensure) := by
  have hfil : fc.records.filter (fun c => c.oid != oid) = fc.records :=
    List.filter_eq_self.mpr (fun x hx => by simp [h x hx])
  simp [deleteCalculator, readAll_eq, hfil]

theorem deleteCalculator_hit {oid : Int} {fc : FileContent Calculator}
    (h : ∃ c ∈ fc.records, c.oid = oid) :
    deleteCalculator oid fc =
      (true, .array (fc.records.filter (fun c => c.oid != oid))) := by
  obtain ⟨c, hc, hco⟩ := h
  have hlen : (fc.records.filter (fun c => c.oid != oid)).length ≠ fc.records.length := by
    intro heq
    have := filter_length_eq_iff.mp heq c hc
    simp [hco] at this
  simp [deleteCalculator, readAll_eq, hlen, writeAll]

end CalculatorManager

/-! Per-operation behaviour of the note manager. -/

namespace NoteManager

theorem loadNotes_eq (fc : FileContent Note) :
    loadNotes fc = (fc.records, fc.ensure) := by
  cases fc <;> rfl

theorem getNotes_eq (fc : FileContent Note) :
    getNotes fc = (fc.records, fc.ensure) := loadNotes_eq fc

theorem getNoteByTitle_eq (title : String) (fc : FileContent Note) :
    getNoteByTitle title fc =
      (fc.records.find? (fun n => n.title == title), fc.ensure) := by
  cases fc <;> rfl

theorem addNote_dup {t b : String} {fc : FileContent Note}
    (h : ∃ n ∈ fc.records, n.title = t) :
    addNote t b fc = (none, fc) := by
  obtain ⟨n, hn, hnt⟩ := h
  have hens : fc.ensure = fc :=
    FileContent.ensure_of_records_ne_nil (List.ne_nil_of_mem hn)
  have hsome : (fc.records.find? (fun n => n.title == t)).isSome := by
    rw [List.find?_isSome]
    exact ⟨n, hn, by simp [hnt]⟩
  obtain ⟨x, hx⟩ := Option.isSome_iff_exists.mp hsome
  simp [addNote, loadNotes_eq, hx, hens]

theorem addNote_new {t b : String} {fc : FileContent Note}
    (h : ∀ n ∈ fc.records, n.title ≠ t) :
    addNote t b fc = (some ⟨t, b⟩, .array (fc.records ++ [⟨t, b⟩])) := by
  have hfind : fc.records.find? (fun n => n.title == t) = none :=
    List.find?_eq_none.mpr (fun x hx => by simp [h x hx])
  simp [addNote, loadNotes_eq, hfind, saveNotes]

theorem updateNote_none {t b : String} {fc : FileContent Note}
    (h : ∀ n ∈ fc.records, n.title ≠ t) :
    updateNote t b fc = (none, fc.ensure) := by
  have hfind : fc.records.find? (fun n => n.title == t) = none :=
    List.find?_eq_none.mpr (fun x hx => by simp [h x hx])
  simp [updateNote, loadNotes_eq, hfind]

theorem updateNote_some {t b : String} {n : Note} {fc : FileContent Note}
    (h : fc.records.find? (fun x => x.title == t) = some n) :
    updateNote t b fc =
      (some { n with body := b },
        .array (updateFirst (fun x => x.title == t)
          (fun x => { x with body := b }) fc.records)) := by
  simp [updateNote, loadNotes_eq, h, saveNotes]

theorem removeNote_miss {t : String} {fc : FileContent Note}
    (h : ∀ n ∈ fc.records, n.title ≠ t) :
    removeNote t fc = (false, fc.ensure) := by
  have hfil : fc.records.filter (fun n => n.title != t) = fc.records :=
    List.filter_eq_self.mpr (fun x hx => by simp [h x hx])
  simp [removeNote, loadNotes_eq, hfil]

theorem removeNote_hit {t : String} {fc : FileContent Note}
    (h : ∃ n ∈ fc.records, n.title = t) :
    removeNote t fc =
      (true, .array (fc.records.filter (fun n => n.title != t))) := by
  obtain ⟨n, hn, hnt⟩ := h
  have hlen : (fc.records.filter (fun n => n.title != t)).length ≠ fc.records.length := by
    intro heq
    have := filter_length_eq_iff.mp heq n hn
    simp [hnt] at this
  simp [removeNote, loadNotes_eq, hlen, saveNotes]

end NoteManager

/-! Key-uniqueness preservation. -/

theorem calcKeys_nodup_op {fc : FileContent Calculator}
    (h : (calcKeys fc.records).Nodup) (op : CalcOp) :
    (calcKeys (applyCalcOp fc op).records).Nodup := by
  cases op with
  | add oid m g b =>
      by_cases hd : ∃ c ∈ fc.records, c.oid = oid
      · rw [applyCalcOp, CalculatorManager.addCalculator_dup hd]
        exact h
      · push_neg at hd
        rw [applyCalcOp, CalculatorManager.addCalculator_new hd]
        have hnm : oid ∉ calcKeys fc.records := by
          simp only [calcKeys, List.mem_map]
          rintro ⟨c, hc, rfl⟩
          exact hd c hc rfl
        simp only [FileContent.records, calcKeys, List.map_append, List.map_cons,
          List.map_nil, List.nodup_append]
        exact ⟨h, List.nodup_singleton _, by simpa [calcKeys, List.disjoint_singleton] using hnm⟩
  | edit oid m g b =>
      cases hfind : fc.records.find? (fun x => x.oid == oid) with
      | none =>
          have hall : ∀ c ∈ fc.records, c.oid ≠ oid := by
            intro c hc
            have := List.find?_eq_none.mp hfind c hc
            simpa using this
          rw [applyCalcOp, CalculatorManager.editCalculator_none hall]
          simpa [calcKeys, FileContent.records_ensure] using h
      | some c =>
          rw [applyCalcOp, CalculatorManager.editCalculator_some hfind]
          have heq := map_updateFirst (p := fun x => x.oid == oid)
            (f := fun x => { x with manufacturer := m, grade := g, batteryType := b })
            Calculator.oid (fun x => rfl) fc.records
          simpa [calcKeys, FileContent.records_array, heq] using h
  | delete oid =>
      by_cases hd : ∃ c ∈ fc.records, c.oid = oid
      · rw [applyCalcOp, CalculatorManager.deleteCalculator_hit hd]
        have hsub : List.Sublist (calcKeys (fc.records.filter (fun c => c.oid != oid)))
            (calcKeys fc.records) := (List.filter_sublist _).map Calculator.oid
        exact List.Nodup.sublist hsub h
      · push_neg at hd
        rw [applyCalcOp, CalculatorManager.deleteCalculator_miss hd]
        simpa [calcKeys, FileContent.records_ensure] using h

theorem calcKeys_nodup_ops {fc : FileContent Calculator}
    (h : (calcKeys fc.records).Nodup) (ops : List CalcOp) :
    (calcKeys (applyCalcOps fc ops).records).Nodup := by
  induction ops generalizing fc with
  | nil => exact h
  | cons op ops ih => exact ih (calcKeys_nodup_op h op)

theorem noteKeys_nodup_op {fc : FileContent Note}
    (h : (noteKeys fc.records).Nodup) (op : NoteOp) :
    (noteKeys (applyNoteOp fc op).records).Nodup := by
  cases op with
  | add t b =>
      by_cases hd : ∃ n ∈ fc.records, n.title = t
      · rw [applyNoteOp, NoteManager.addNote_dup hd]
        exact h
      · push_neg at hd
        rw [applyNoteOp, NoteManager.addNote_new hd]
        have hnm : t ∉ noteKeys fc.records := by
          simp only [noteKeys, List.mem_map]
          rintro ⟨n, hn, rfl⟩
          exact hd n hn rfl
        simp only [FileContent.records, noteKeys, List.map_append, List.map_cons,
          List.map_nil, List.nodup_append]
        exact ⟨h, List.nodup_singleton _, by simpa [noteKeys, List.disjoint_singleton] using hnm⟩
  | update t b =>
      cases hfind : fc.records.find? (fun x => x.title == t) with
      | none =>
          have hall : ∀ n ∈ fc.records, n.title ≠ t := by
            intro n hn
            have := List.find?_eq_none.mp hfind n hn
            simpa using this
          rw [applyNoteOp, NoteManager.updateNote_none hall]
          simpa [noteKeys, FileContent.records_ensure] using h
      | some n =>
          rw [applyNoteOp, NoteManager.updateNote_some hfind]
          have heq := map_updateFirst (p := fun x => x.title == t)
            (f := fun x => { x with body := b }) Note.title (fun x => rfl) fc.records
          simpa [noteKeys, FileContent.records_array, heq] using h
  | remove t =>
      by_cases hd : ∃ n ∈ fc.records, n.title = t
      · rw [applyNoteOp, NoteManager.removeNote_hit hd]
        have hsub : List.Sublist (noteKeys (fc.records.filter (fun n => n.title != t)))
            (noteKeys fc.records) := (List.filter_sublist _).map Note.title
        exact List.Nodup.sublist hsub h
      · push_neg at hd
        rw [applyNoteOp, NoteManager.removeNote_miss hd]
        simpa [noteKeys, FileContent.records_ensure] using h

theorem noteKeys_nodup_ops {fc : FileContent Note}
    (h : (noteKeys fc.records).Nodup) (ops : List NoteOp) :
    (noteKeys (applyNoteOps fc ops).records).Nodup := by
  induction ops generalizing fc with
  | nil => exact h
  | cons op ops ih => exact ih (noteKeys_nodup_op h op)

/-- C1: key uniqueness is an invariant.  Starting from a collection in
which no two records share a key, every sequence of add, update and
delete operations leaves list() free of duplicate keys, for both
managers; and an add whose key equals the key of an existing record
returns the duplicate signal `none` and leaves the file content entirely
unchanged. -/
theorem C1_key_uniqueness_invariant :
    (∀ (fc : FileContent Calculator) (ops : List CalcOp),
        (calcKeys (CalculatorManager.getCalculators fc).1).Nodup →
        (calcKeys (CalculatorManager.getCalculators (applyCalcOps fc ops)).1).Nodup) ∧
    (∀ (oid : Int) (m : String) (g b : Int) (fc : FileContent Calculator),
        (∃ c ∈ (CalculatorManager.getCalculators fc).1, c.oid = oid) →
        CalculatorManager.addCalculator oid m g b fc = (none, fc)) ∧
    (∀ (fc : FileContent Note) (ops : List NoteOp),
        (noteKeys (NoteManager.getNotes fc).1).Nodup →
        (noteKeys (NoteManager.getNotes (applyNoteOps fc ops)).1).Nodup) ∧
    (∀ (t b : String) (fc : FileContent Note),
        (∃ n ∈ (NoteManager.getNotes fc).1, n.title = t) →
        NoteManager.addNote t b fc = (none, fc)) := by
  refine ⟨fun fc ops h => ?_, fun oid m g b fc h => ?_, fun fc ops h => ?_,
    fun t b fc h => ?_⟩
  · rw [CalculatorManager.getCalculators_eq] at h ⊢
    exact calcKeys_nodup_ops (by simpa using h) ops
  · rw [CalculatorManager.getCalculators_eq] at h
    exact CalculatorManager.addCalculator_dup (by simpa using h)
  · rw [NoteManager.getNotes_eq] at h ⊢
    exact noteKeys_nodup_ops (by simpa using h) ops
  · rw [NoteManager.getNotes_eq] at h
    exact NoteManager.addNote_dup (by simpa using h)

/-- Closed instance of C1: a concrete operation sequence keeps keys
unique, and a concrete duplicate add is a rejected no-op. -/
theorem C1_key_uniqueness_invariant_witness :
    (calcKeys (CalculatorManager.getCalculators (applyCalcOps (.array [⟨1, "A", 2, 3⟩])
        [CalcOp.add 2 "B" 0 1, CalcOp.edit 1 "C" 4 2, CalcOp.delete 2,
          CalcOp.add 1 "D" 9 3])).1).Nodup ∧
    NoteManager.addNote "Shopping" "bread" (.array [⟨"Shopping", "milk, eggs"⟩]) =
      (none, .array [⟨"Shopping", "milk, eggs"⟩]) :=
  ⟨C1_key_uniqueness_invariant.1 _ _ (by decide),
    C1_key_uniqueness_invariant.2.2.2 "Shopping" "bread" _
      ⟨⟨"Shopping", "milk, eggs"⟩, by decide, rfl⟩⟩

/-- C2: read-your-writes.  Immediately after a successful add the added
record is found under its key; immediately after a successful update the
record found under the key carries exactly the new mutable fields;
immediately after a successful delete the key is reported not-found —
for both managers. -/
theorem C2_read_your_writes :
    (∀ (oid : Int) (m : String) (g b : Int) (fc : FileContent Calculator) (r : Calculator),
        (CalculatorManager.addCalculator oid m g b fc).1 = some r →
        (CalculatorManager.getCalculatorByOid oid
          (CalculatorManager.addCalculator oid m g b fc).2).1 = some r) ∧
    (∀ (oid : Int) (m : String) (g b : Int) (fc : FileContent Calculator) (r : Calculator),
        (CalculatorManager.editCalculator oid m g b fc).1 = some r →
        (CalculatorManager.getCalculatorByOid oid
          (CalculatorManager.editCalculator oid m g b fc).2).1 = some r ∧
        r.manufacturer = m ∧ r.grade = g ∧ r.batteryType = b) ∧
    (∀ (oid : Int) (fc : FileContent Calculator),
        (CalculatorManager.deleteCalculator oid fc).1 = true →
        (CalculatorManager.getCalculatorByOid oid
          (CalculatorManager.deleteCalculator oid fc).2).1 = none) ∧
    (∀ (t b : String) (fc : FileContent Note) (r : Note),
        (NoteManager.addNote t b fc).1 = some r →
        (NoteManager.getNoteByTitle t (NoteManager.addNote t b fc).2).1 = some r) ∧
    (∀ (t b : String) (fc : FileContent Note) (r : Note),
        (NoteManager.updateNote t b fc).1 = some r →
        (NoteManager.getNoteByTitle t (NoteManager.updateNote t b fc).2).1 = some r ∧
        r.body = b) ∧
    (∀ (t : String) (fc : FileContent Note),
        (NoteManager.removeNote t fc).1 = true →
        (NoteManager.getNoteByTitle t (NoteManager.removeNote t fc).2).1 = none) := by
  refine ⟨fun oid m g b fc r h => ?_, fun oid m g b fc r h => ?_, fun oid fc h => ?_,
    fun t b fc r h => ?_, fun t b fc r h => ?_, fun t fc h => ?_⟩
  · by_cases hd : ∃ c ∈ fc.records, c.oid = oid
    · rw [CalculatorManager.addCalculator_dup hd] at h
      simp at h
    · push_neg at hd
      rw [CalculatorManager.addCalculator_new hd] at h ⊢
      have hr : r = ⟨oid, m, g, b⟩ := by simpa using h.symm
      subst hr
      have hnone : fc.records.find? (fun c => c.oid == oid) = none :=
        List.find?_eq_none.mpr (fun x hx => by simp [hd x hx])
      simp [CalculatorManager.getCalculatorByOid_eq, FileContent.records_array,
        List.find?_append, hnone]
  · cases hfind : fc.records.find? (fun x => x.oid == oid) with
    | none =>
        have hall : ∀ c ∈ fc.records, c.oid ≠ oid := by
          intro c hc
          have := List.find?_eq_none.mp hfind c hc
          simpa using this
        rw [CalculatorManager.editCalculator_none hall] at h
        simp at h
    | some c =>
        rw [CalculatorManager.editCalculator_some hfind] at h ⊢
        have hr : r = { c with manufacturer := m, grade := g, batteryType := b } := by
          simpa using h.symm
        subst hr
        have hfu := find?_updateFirst (p := fun x => x.oid == oid)
          (f := fun x => { x with manufacturer := m, grade := g, batteryType := b })
          (fun x hx => hx) fc.records
        refine ⟨?_, rfl, rfl, rfl⟩
        simp [CalculatorManager.getCalculatorByOid_eq, FileContent.records_array, hfu, hfind]
  · by_cases hd : ∃ c ∈ fc.records, c.oid = oid
    · rw [CalculatorManager.deleteCalculator_hit hd] at h ⊢
      simp only [CalculatorManager.getCalculatorByOid_eq, FileContent.records_array]
      rw [List.find?_eq_none]
      intro x hx
      rw [List.mem_filter] at hx
      simpa using hx.2
    · push_neg at hd
      rw [CalculatorManager.deleteCalculator_miss hd] at h
      simp at h
  · by_cases hd : ∃ n ∈ fc.records, n.title = t
    · rw [NoteManager.addNote_dup hd] at h
      simp at h
    · push_neg at hd
      rw [NoteManager.addNote_new hd] at h ⊢
      have hr : r = ⟨t, b⟩ := by simpa using h.symm
      subst hr
      have hnone : fc.records.find? (fun n => n.title == t) = none :=
        List.find?_eq_none.mpr (fun x hx => by simp [hd x hx])
      simp [NoteManager.getNoteByTitle_eq, FileContent.records_array,
        List.find?_append, hnone]
  · cases hfind : fc.records.find? (fun x => x.title == t) with
    | none =>
        have hall : ∀ n ∈ fc.records, n.title ≠ t := by
          intro n hn
          have := List.find?_eq_none.mp hfind n hn
          simpa using this
        rw [NoteManager.updateNote_none hall] at h
        simp at h
    | some n =>
        rw [NoteManager.updateNote_some hfind] at h ⊢
        have hr : r = { n with body := b } := by simpa using h.symm
        subst hr
        have hfu := find?_updateFirst (p := fun x => x.title == t)
          (f := fun x => { x with body := b }) (fun x hx => hx) fc.records
        refine ⟨?_, rfl⟩
        simp [NoteManager.getNoteByTitle_eq, FileContent.records_array, hfu, hfind]
  · by_cases hd : ∃ n ∈ fc.records, n.title = t
    · rw [NoteManager.removeNote_hit hd] at h ⊢
      simp only [NoteManager.getNoteByTitle_eq, FileContent.records_array]
      rw [List.find?_eq_none]
      intro x hx
      rw [List.mem_filter] at hx
      simpa using hx.2
    · push_neg at hd
      rw [NoteManager.removeNote_miss hd] at h
      simp at h

/-- Closed instance of C2: a concrete add is immediately readable, a
concrete update is immediately visible, a concrete delete immediately
reports not-found. -/
theorem C2_read_your_writes_witness :
    (CalculatorManager.getCalculatorByOid 7
        (CalculatorManager.addCalculator 7 "Acme" 5 2 (.array [])).2).1 =
      some ⟨7, "Acme", 5, 2⟩ ∧
    (NoteManager.getNoteByTitle "Shopping"
        (NoteManager.updateNote "Shopping" "eggs only"
          (.array [⟨"Shopping", "milk, eggs"⟩])).2).1 = some ⟨"Shopping", "eggs only"⟩ ∧
    (NoteManager.getNoteByTitle "Shopping"
        (NoteManager.removeNote "Shopping" (.array [⟨"Shopping", "eggs only"⟩])).2).1 =
      none :=
  ⟨C2_read_your_writes.1 7 "Acme" 5 2 _ _ (by decide),
    (C2_read_your_writes.2.2.2.2.1 "Shopping" "eggs only" _ _ (by decide)).1,
    C2_read_your_writes.2.2.2.2.2 "Shopping" _ (by decide)⟩

/-! Lookup under a duplicate-free key column. -/

theorem find?_key_eq_of_nodup {α κ : Type} [DecidableEq κ] {k : α → κ} {l : List α}
    {c : α} {key : κ} (hnd : (l.map k).Nodup) (hc : c ∈ l) (hck : k c = key) :
    l.find? (fun x => k x == key) = some c := by
  have hsome : (l.find? (fun x => k x == key)).isSome := by
    rw [List.find?_isSome]
    exact ⟨c, hc, by simp [hck]⟩
  obtain ⟨x, hx⟩ := Option.isSome_iff_exists.mp hsome
  have hxm := List.mem_of_find?_eq_some hx
  have hxp := List.find?_some hx
  have hxk : k x = k c := by
    rw [hck]
    exact beq_iff_eq.mp hxp
  have hxc : x = c := List.inj_on_of_nodup_map hnd hxm hc hxk
  rwa [hxc] at hx

theorem pairwise_key_of_nodup {α κ : Type} [DecidableEq κ] {k : α → κ} {l : List α}
    {key : κ} (hnd : (l.map k).Nodup) :
    l.Pairwise (fun a b => (k a == key) = true → (k b == key) = false) := by
  have hp : l.Pairwise (fun a b => k a ≠ k b) := List.pairwise_map.mp hnd
  exact hp.imp (fun {a b} hab ha => by
    have ha' : k a = key := by simpa using ha
    have : k b ≠ key := fun hb => hab (ha'.trans hb.symm)
    simpa using this)

/-- C4: permissive read.  list() is a total function of the file content
(it can never raise), and a missing file, a blank (empty or
whitespace-only) file, invalid JSON and non-array JSON all read as the
empty collection, for both managers; the string-level read path agrees on
concrete corrupt inputs. -/
theorem C4_permissive_read :
    (CalculatorManager.getCalculators FileContent.missing).1 = [] ∧
    (CalculatorManager.getCalculators FileContent.blank).1 = [] ∧
    (CalculatorManager.getCalculators FileContent.invalid).1 = [] ∧
    (CalculatorManager.getCalculators FileContent.nonArray).1 = [] ∧
    (NoteManager.getNotes FileContent.missing).1 = [] ∧
    (NoteManager.getNotes FileContent.blank).1 = [] ∧
    (NoteManager.getNotes FileContent.invalid).1 = [] ∧
    (NoteManager.getNotes FileContent.nonArray).1 = [] ∧
    Codec.readAllOfRaw none = [] ∧
    Codec.readAllOfRaw (some "") = [] ∧
    Codec.readAllOfRaw (some " \n\t ") = [] ∧
    Codec.readAllOfRaw (some "\x7b oops") = [] ∧
    Codec.readAllOfRaw (some "null") = [] ∧
    Codec.loadNotesOfRaw (some "42") = [] := by
  decide

/-- C5: update frame and atomicity.  When no record carries the key,
update returns `none` and the collection is unchanged (the only possible
file change is lazy storage initialization); when a record carries the
key and keys are unique, update rewrites exactly that record's mutable
fields, never its key, leaves every other record and the order untouched,
and returns the updated record — for both managers. -/
theorem C5_update_frame :
    (∀ (oid : Int) (m : String) (g b : Int) (fc : FileContent Calculator),
        (∀ c ∈ (CalculatorManager.getCalculators fc).1, c.oid ≠ oid) →
        (CalculatorManager.editCalculator oid m g b fc).1 = none ∧
        (CalculatorManager.getCalculators
          (CalculatorManager.editCalculator oid m g b fc).2).1 =
          (CalculatorManager.getCalculators fc).1) ∧
    (∀ (oid : Int) (m : String) (g b : Int) (fc : FileContent Calculator) (c : Calculator),
        (calcKeys (CalculatorManager.getCalculators fc).1).Nodup →
        c ∈ (CalculatorManager.getCalculators fc).1 → c.oid = oid →
        CalculatorManager.editCalculator oid m g b fc =
          (some ⟨c.oid, m, g, b⟩,
            FileContent.array ((CalculatorManager.getCalculators fc).1.map
              (fun x => if x.oid == oid then ⟨x.oid, m, g, b⟩ else x)))) ∧
    (∀ (t b : String) (fc : FileContent Note),
        (∀ n ∈ (NoteManager.getNotes fc).1, n.title ≠ t) →
        (NoteManager.updateNote t b fc).1 = none ∧
        (NoteManager.getNotes (NoteManager.updateNote t b fc).2).1 =
          (NoteManager.getNotes fc).1) ∧
    (∀ (t b : String) (fc : FileContent Note) (n : Note),
        (noteKeys (NoteManager.getNotes fc).1).Nodup →
        n ∈ (NoteManager.getNotes fc).1 → n.title = t →
        NoteManager.updateNote t b fc =
          (some ⟨n.title, b⟩,
            FileContent.array ((NoteManager.getNotes fc).1.map
              (fun x => if x.title == t then ⟨x.title, b⟩ else x)))) := by
  refine ⟨fun oid m g b fc h => ?_, fun oid m g b fc c hnd hc hco => ?_,
    fun t b fc h => ?_, fun t b fc n hnd hn hnt => ?_⟩
  · rw [CalculatorManager.getCalculators_eq] at h
    rw [CalculatorManager.editCalculator_none (by simpa using h)]
    simp [CalculatorManager.getCalculators_eq, FileContent.records_ensure]
  · rw [CalculatorManager.getCalculators_eq] at hnd hc ⊢
    simp only at hnd hc ⊢
    have hnd' : (fc.records.map Calculator.oid).Nodup := by simpa [calcKeys] using hnd
    have hfind := find?_key_eq_of_nodup (k := Calculator.oid) hnd' hc hco
    rw [CalculatorManager.editCalculator_some hfind]
    rw [updateFirst_eq_map fc.records (pairwise_key_of_nodup hnd')]
  · rw [NoteManager.getNotes_eq] at h
    rw [NoteManager.updateNote_none (by simpa using h)]
    simp [NoteManager.getNotes_eq, FileContent.records_ensure]
  · rw [NoteManager.getNotes_eq] at hnd hn ⊢
    simp only at hnd hn ⊢
    have hnd' : (fc.records.map Note.title).Nodup := by simpa [noteKeys] using hnd
    have hfind := find?_key_eq_of_nodup (k := Note.title) hnd' hn hnt
    rw [NoteManager.updateNote_some hfind]
    rw [updateFirst_eq_map fc.records (pairwise_key_of_nodup hnd')]

/-- Closed instance of C5: a concrete missing-key update is a rejected
no-op, a concrete present-key update rewrites exactly the target
record. -/
theorem C5_update_frame_witness :
    ((CalculatorManager.editCalculator 9 "X" 1 1 (.array [⟨1, "A", 2, 3⟩])).1 = none ∧
      (CalculatorManager.getCalculators
        (CalculatorManager.editCalculator 9 "X" 1 1 (.array [⟨1, "A", 2, 3⟩])).2).1 =
        (CalculatorManager.getCalculators (.array [⟨1, "A", 2, 3⟩])).1) ∧
    NoteManager.updateNote "b" "new" (.array [⟨"a", "1"⟩, ⟨"b", "2"⟩, ⟨"c", "3"⟩]) =
      (some ⟨"b", "new"⟩, .array [⟨"a", "1"⟩, ⟨"b", "new"⟩, ⟨"c", "3"⟩]) := by
  constructor
  · exact C5_update_frame.1 9 "X" 1 1 _ (by decide)
  · have := C5_update_frame.2.2.2 "b" "new" (.array [⟨"a", "1"⟩, ⟨"b", "2"⟩, ⟨"c", "3"⟩])
      ⟨"b", "2"⟩ (by decide) (by decide) rfl
    simpa using this

/-- C6: delete semantics.  When some record carries the key, delete
returns `true` and persists exactly the records whose key differs; when
none does, it returns `false` and the collection is unchanged, so
deleting a non-existent key never alters the collection — for both
managers. -/
theorem C6_delete_semantics :
    (∀ (oid : Int) (fc : FileContent Calculator),
        (∃ c ∈ (CalculatorManager.getCalculators fc).1, c.oid = oid) →
        CalculatorManager.deleteCalculator oid fc =
          (true, FileContent.array ((CalculatorManager.getCalculators fc).1.filter
            (fun c => c.oid != oid)))) ∧
    (∀ (oid : Int) (fc : FileContent Calculator),
        (∀ c ∈ (CalculatorManager.getCalculators fc).1, c.oid ≠ oid) →
        (CalculatorManager.deleteCalculator oid fc).1 = false ∧
        (CalculatorManager.getCalculators
          (CalculatorManager.deleteCalculator oid fc).2).1 =
          (CalculatorManager.getCalculators fc).1) ∧
    (∀ (t : String) (fc : FileContent Note),
        (∃ n ∈ (NoteManager.getNotes fc).1, n.title = t) →
        NoteManager.removeNote t fc =
          (true, FileContent.array ((NoteManager.getNotes fc).1.filter
            (fun n => n.title != t)))) ∧
    (∀ (t : String) (fc : FileContent Note),
        (∀ n ∈ (NoteManager.getNotes fc).1, n.title ≠ t) →
        (NoteManager.removeNote t fc).1 = false ∧
        (NoteManager.getNotes (NoteManager.removeNote t fc).2).1 =
          (NoteManager.getNotes fc).1) := by
  refine ⟨fun oid fc h => ?_, fun oid fc h => ?_, fun t fc h => ?_, fun t fc h => ?_⟩
  · rw [CalculatorManager.getCalculators_eq] at h ⊢
    exact CalculatorManager.deleteCalculator_hit (by simpa using h)
  · rw [CalculatorManager.getCalculators_eq] at h
    rw [CalculatorManager.deleteCalculator_miss (by simpa using h)]
    simp [CalculatorManager.getCalculators_eq, FileContent.records_ensure]
  · rw [NoteManager.getNotes_eq] at h ⊢
    exact NoteManager.removeNote_hit (by simpa using h)
  · rw [NoteManager.getNotes_eq] at h
    rw [NoteManager.removeNote_miss (by simpa using h)]
    simp [NoteManager.getNotes_eq, FileContent.records_ensure]

/-- Closed instance of C6: a concrete hit deletes exactly the matching
record; a concrete miss returns false and changes nothing. -/
theorem C6_delete_semantics_witness :
    CalculatorManager.deleteCalculator 1 (.array [⟨1, "A", 2, 3⟩, ⟨2, "B", 0, 1⟩]) =
      (true, .array [⟨2, "B", 0, 1⟩]) ∧
    ((NoteManager.removeNote "zzz" (.array [⟨"a", "1"⟩])).1 = false ∧
      (NoteManager.getNotes (NoteManager.removeNote "zzz" (.array [⟨"a", "1"⟩])).2).1 =
        (NoteManager.getNotes (.array [⟨"a", "1"⟩])).1) := by
  constructor
  · have := C6_delete_semantics.1 1 (.array [⟨1, "A", 2, 3⟩, ⟨2, "B", 0, 1⟩])
      ⟨⟨1, "A", 2, 3⟩, by decide, rfl⟩
    simpa using this
  · exact C6_delete_semantics.2.2.2 "zzz" _ (by decide)

/-- C8: successful add semantics.  When the supplied key is fresh, add
builds the record from exactly the supplied field values, appends it last
preserving the order of the existing records, persists the full array and
returns the created record — for both managers. -/
theorem C8_add_success :
    (∀ (oid : Int) (m : String) (g b : Int) (fc : FileContent Calculator),
        (∀ c ∈ (CalculatorManager.getCalculators fc).1, c.oid ≠ oid) →
        CalculatorManager.addCalculator oid m g b fc =
          (some ⟨oid, m, g, b⟩,
            FileContent.array ((CalculatorManager.getCalculators fc).1 ++ [⟨oid, m, g, b⟩]))) ∧
    (∀ (t b : String) (fc : FileContent Note),
        (∀ n ∈ (NoteManager.getNotes fc).1, n.title ≠ t) →
        NoteManager.addNote t b fc =
          (some ⟨t, b⟩, FileContent.array ((NoteManager.getNotes fc).1 ++ [⟨t, b⟩]))) := by
  refine ⟨fun oid m g b fc h => ?_, fun t b fc h => ?_⟩
  · rw [CalculatorManager.getCalculators_eq] at h ⊢
    exact CalculatorManager.addCalculator_new (by simpa using h)
  · rw [NoteManager.getNotes_eq] at h ⊢
    exact NoteManager.addNote_new (by simpa using h)

/-- Closed instance of C8: a concrete fresh-key add appends the record
built from the supplied values. -/
theorem C8_add_success_witness :
    CalculatorManager.addCalculator 7 "Acme" 5 2 (.array [⟨1, "A", 2, 3⟩]) =
      (some ⟨7, "Acme", 5, 2⟩, .array [⟨1, "A", 2, 3⟩, ⟨7, "Acme", 5, 2⟩]) ∧
    NoteManager.addNote "Shopping" "milk, eggs" (.array []) =
      (some ⟨"Shopping", "milk, eggs"⟩, .array [⟨"Shopping", "milk, eggs"⟩]) := by
  constructor
  · have := C8_add_success.1 7 "Acme" 5 2 (.array [⟨1, "A", 2, 3⟩]) (by decide)
    simpa using this
  · have := C8_add_success.2 "Shopping" "milk, eggs" (.array []) (by decide)
    simpa using this

/-- C10: the managers enforce no field-content constraints.  For every
field values — empty strings and out-of-range numbers included — add
succeeds exactly when the key is fresh and edit/update succeeds exactly
when the key is present, and a successful operation stores exactly the
supplied values. -/
theorem C10_no_manager_validation :
    (∀ (oid : Int) (m : String) (g b : Int) (fc : FileContent Calculator),
        ((CalculatorManager.addCalculator oid m g b fc).1 ≠ none ↔
          ∀ c ∈ (CalculatorManager.getCalculators fc).1, c.oid ≠ oid) ∧
        (∀ r, (CalculatorManager.addCalculator oid m g b fc).1 = some r →
          r = ⟨oid, m, g, b⟩)) ∧
    (∀ (oid : Int) (m : String) (g b : Int) (fc : FileContent Calculator),
        ((CalculatorManager.editCalculator oid m g b fc).1 ≠ none ↔
          ∃ c ∈ (CalculatorManager.getCalculators fc).1, c.oid = oid) ∧
        (∀ r, (CalculatorManager.editCalculator oid m g b fc).1 = some r →
          r.manufacturer = m ∧ r.grade = g ∧ r.batteryType = b)) ∧
    (∀ (t b : String) (fc : FileContent Note),
        ((NoteManager.addNote t b fc).1 ≠ none ↔
          ∀ n ∈ (NoteManager.getNotes fc).1, n.title ≠ t) ∧
        (∀ r, (NoteManager.addNote t b fc).1 = some r → r = ⟨t, b⟩)) ∧
    (∀ (t b : String) (fc : FileContent Note),
        ((NoteManager.updateNote t b fc).1 ≠ none ↔
          ∃ n ∈ (NoteManager.getNotes fc).1, n.title = t) ∧
        (∀ r, (NoteManager.updateNote t b fc).1 = some r → r.body = b)) := by
  have hrecC : ∀ fc : FileContent Calculator,
      (CalculatorManager.getCalculators fc).1 = fc.records := by
    intro fc
    rw [CalculatorManager.getCalculators_eq]
  have hrecN : ∀ fc : FileContent Note, (NoteManager.getNotes fc).1 = fc.records := by
    intro fc
    rw [NoteManager.getNotes_eq]
  refine ⟨fun oid m g b fc => ⟨?_, ?_⟩, fun oid m g b fc => ⟨?_, ?_⟩,
    fun t b fc => ⟨?_, ?_⟩, fun t b fc => ⟨?_, ?_⟩⟩
  · rw [hrecC]
    by_cases hd : ∃ c ∈ fc.records, c.oid = oid
    · rw [CalculatorManager.addCalculator_dup hd]
      obtain ⟨c, hc, hco⟩ := hd
      constructor
      · intro h
        exact absurd rfl h
      · intro hall
        exact absurd hco (hall c hc)
    · push_neg at hd
      rw [CalculatorManager.addCalculator_new hd]
      constructor
      · intro _
        exact hd
      · intro _
        simp
  · intro r h
    by_cases hd : ∃ c ∈ fc.records, c.oid = oid
    · rw [CalculatorManager.addCalculator_dup hd] at h
      simp at h
    · push_neg at hd
      rw [CalculatorManager.addCalculator_new hd] at h
      simpa using h.symm
  · rw [hrecC]
    cases hfind : fc.records.find? (fun x => x.oid == oid) with
    | none =>
        have hall : ∀ c ∈ fc.records, c.oid ≠ oid := by
          intro c hc
          have := List.find?_eq_none.mp hfind c hc
          simpa using this
        rw [CalculatorManager.editCalculator_none hall]
        constructor
        · intro h
          exact absurd rfl h
        · rintro ⟨c, hc, hco⟩
          exact absurd hco (hall c hc)
    | some c =>
        rw [CalculatorManager.editCalculator_some hfind]
        constructor
        · intro _
          exact ⟨c, List.mem_of_find?_eq_some hfind, by
            simpa using List.find?_some hfind⟩
        · intro _
          simp
  · intro r h
    cases hfind : fc.records.find? (fun x => x.oid == oid) with
    | none =>
        have hall : ∀ c ∈ fc.records, c.oid ≠ oid := by
          intro c hc
          have := List.find?_eq_none.mp hfind c hc
          simpa using this
        rw [CalculatorManager.editCalculator_none hall] at h
        simp at h
    | some c =>
        rw [CalculatorManager.editCalculator_some hfind] at h
        have : r = { c with manufacturer := m, grade := g, batteryType := b } := by
          simpa using h.symm
        subst this
        exact ⟨rfl, rfl, rfl⟩
  · rw [hrecN]
    by_cases hd : ∃ n ∈ fc.records, n.title = t
    · rw [NoteManager.addNote_dup hd]
      obtain ⟨n, hn, hnt⟩ := hd
      constructor
      · intro h
        exact absurd rfl h
      · intro hall
        exact absurd hnt (hall n hn)
    · push_neg at hd
      rw [NoteManager.addNote_new hd]
      constructor
      · intro _
        exact hd
      · intro _
        simp
  · intro r h
    by_cases hd : ∃ n ∈ fc.records, n.title = t
    · rw [NoteManager.addNote_dup hd] at h
      simp at h
    · push_neg at hd
      rw [NoteManager.addNote_new hd] at h
      simpa using h.symm
  · rw [hrecN]
    cases hfind : fc.records.find? (fun x => x.title == t) with
    | none =>
        have hall : ∀ n ∈ fc.records, n.title ≠ t := by
          intro n hn
          have := List.find?_eq_none.mp hfind n hn
          simpa using this
        rw [NoteManager.updateNote_none hall]
        constructor
        · intro h
          exact absurd rfl h
        · rintro ⟨n, hn, hnt⟩
          exact absurd hnt (hall n hn)
    | some n =>
        rw [NoteManager.updateNote_some hfind]
        constructor
        · intro _
          exact ⟨n, List.mem_of_find?_eq_some hfind, by
            simpa using List.find?_some hfind⟩
        · intro _
          simp
  · intro r h
    cases hfind : fc.records.find? (fun x => x.title == t) with
    | none =>
        have hall : ∀ n ∈ fc.records, n.title ≠ t := by
          intro n hn
          have := List.find?_eq_none.mp hfind n hn
          simpa using this
        rw [NoteManager.updateNote_none hall] at h
        simp at h
    | some n =>
        rw [NoteManager.updateNote_some hfind] at h
        have : r = { n with body := b } := by simpa using h.symm
        subst this
        rfl

/-- Closed instance of C10: adds and updates with an empty manufacturer,
an out-of-range grade and battery type succeed at the manager layer and
store the values verbatim. -/
theorem C10_no_manager_validation_witness :
    (CalculatorManager.addCalculator 5 "" 99 (-4) (.array [])).1 ≠ none ∧
    (∀ r, (CalculatorManager.addCalculator 5 "" 99 (-4) (.array [])).1 = some r →
      r = ⟨5, "", 99, -4⟩) ∧
    (CalculatorManager.editCalculator 5 "" 11 0 (.array [⟨5, "A", 2, 3⟩])).1 ≠ none ∧
    (NoteManager.addNote "" "" (.array [])).1 ≠ none ∧
    (NoteManager.updateNote "t" "" (.array [⟨"t", "old"⟩])).1 ≠ none :=
  ⟨(C10_no_manager_validation.1 5 "" 99 (-4) (.array [])).1.mpr (by decide),
    (C10_no_manager_validation.1 5 "" 99 (-4) (.array [])).2,
    (C10_no_manager_validation.2.1 5 "" 11 0 (.array [⟨5, "A", 2, 3⟩])).1.mpr
      ⟨⟨5, "A", 2, 3⟩, by decide, rfl⟩,
    (C10_no_manager_validation.2.2.1 "" "" (.array [])).1.mpr (by decide),
    (C10_no_manager_validation.2.2.2 "t" "" (.array [⟨"t", "old"⟩])).1.mpr
      ⟨⟨"t", "old"⟩, by decide, rfl⟩⟩

/-- jsTrim of the empty string. -/
theorem jsTrim_empty : jsTrim "" = "" := rfl

theorem option_map_jsTrim_getD (o : Option String) :
    (o.map jsTrim).getD "" = jsTrim (o.getD "") := by
  cases o <;> simp [jsTrim_empty]

/-- The rejection branch of postCreate: when the oid fails to parse or
validateFields rejects, postCreate re-renders with the raw oid, grade and
batteryType, the trimmed manufacturer and the generic error, and the file
content is untouched (the manager is never called). -/
theorem CalculatorController.postCreate_reject
    {body : CalculatorController.CalculatorFormBody} {fc : FileContent Calculator}
    (h : (CalculatorController.parseFormBody body).oid = none ∨
      (CalculatorController.validateFields
        (CalculatorController.parseFormBody body).manufacturer
        (CalculatorController.parseFormBody body).grade
        (CalculatorController.parseFormBody body).batteryType).1 = false) :
    CalculatorController.postCreate body fc =
      (CalculatorController.Response.render
        ⟨(CalculatorController.parseFormBody body).oidRaw,
          (CalculatorController.parseFormBody body).manufacturer,
          (CalculatorController.parseFormBody body).gradeRaw,
          (CalculatorController.parseFormBody body).batteryTypeRaw⟩
        (some CalculatorController.genericError), fc) := by
  simp only [CalculatorController.postCreate]
  cases ho : (CalculatorController.parseFormBody body).oid with
  | none =>
      cases hg : (CalculatorController.parseFormBody body).grade <;>
        cases hb : (CalculatorController.parseFormBody body).batteryType <;>
          simp [ho, hg, hb]
  | some ov =>
      have hval : (CalculatorController.validateFields
          (CalculatorController.parseFormBody body).manufacturer
          (CalculatorController.parseFormBody body).grade
          (CalculatorController.parseFormBody body).batteryType).1 = false := by
        rcases h with h | h
        · rw [ho] at h
          cases h
        · exact h
      cases hg : (CalculatorController.parseFormBody body).grade with
      | none =>
          cases hb : (CalculatorController.parseFormBody body).batteryType <;>
            simp [ho, hg, hb]
      | some gv =>
          cases hb : (CalculatorController.parseFormBody body).batteryType with
          | none => simp [ho, hg, hb]
          | some bv =>
              rw [hg, hb] at hval
              simp [ho, hg, hb, hval]

/-- The rejection branch of postEdit: with a parsed oid route parameter
and failing validation, postEdit re-renders (after the read performed to
reload the existing record) and never calls editCalculator. -/
theorem CalculatorController.postEdit_reject
    {oidParam : String} {body : CalculatorController.CalculatorFormBody}
    {fc : FileContent Calculator} {oidv : Int}
    (hp : CalculatorController.parseIntOfField (some oidParam) = some oidv)
    (h : (CalculatorController.validateFields
        (CalculatorController.parseFormBody body).manufacturer
        (CalculatorController.parseFormBody body).grade
        (CalculatorController.parseFormBody body).batteryType).1 = false) :
    CalculatorController.postEdit oidParam body fc =
      (CalculatorController.Response.render
        ⟨toString oidv, (CalculatorController.parseFormBody body).manufacturer,
          (CalculatorController.parseFormBody body).gradeRaw,
          (CalculatorController.parseFormBody body).batteryTypeRaw⟩
        (some CalculatorController.genericError),
        (CalculatorManager.getCalculatorByOid oidv fc).2) := by
  simp only [CalculatorController.postEdit, hp]
  simp [h]

/-- C7: calculator validation bounds.  validateFields accepts exactly a
nonempty manufacturer together with a parsed grade in [0,10] and a parsed
battery type in [1,3]; a string field parses only if Number(trimmed) is
an exact integer; and when validation fails, postCreate and postEdit
re-render with the generic error and never call the manager: the file
content (postCreate) and the collection (postEdit) are unchanged. -/
theorem C7_validation_bounds :
    (∀ (m : String) (g b : Option Int),
        (CalculatorController.validateFields m g b).1 = true ↔
          (m ≠ "" ∧ (∃ gv, g = some gv ∧ 0 ≤ gv ∧ gv ≤ 10) ∧
            (∃ bv, b = some bv ∧ 1 ≤ bv ∧ bv ≤ 3))) ∧
    (∀ (s : String) (n : Int),
        CalculatorController.parseIntOfField (some s) = some n →
        CalculatorController.jsNumber (jsTrim s) = CalculatorController.JsNum.int n) ∧
    (∀ (body : CalculatorController.CalculatorFormBody) (fc : FileContent Calculator),
        (CalculatorController.validateFields
          (CalculatorController.parseFormBody body).manufacturer
          (CalculatorController.parseFormBody body).grade
          (CalculatorController.parseFormBody body).batteryType).1 = false →
        CalculatorController.postCreate body fc =
          (CalculatorController.Response.render
            ⟨(CalculatorController.parseFormBody body).oidRaw,
              (CalculatorController.parseFormBody body).manufacturer,
              (CalculatorController.parseFormBody body).gradeRaw,
              (CalculatorController.parseFormBody body).batteryTypeRaw⟩
            (some CalculatorController.genericError), fc)) ∧
    (∀ (oidParam : String) (body : CalculatorController.CalculatorFormBody)
        (fc : FileContent Calculator) (oidv : Int),
        CalculatorController.parseIntOfField (some oidParam) = some oidv →
        (CalculatorController.validateFields
          (CalculatorController.parseFormBody body).manufacturer
          (CalculatorController.parseFormBody body).grade
          (CalculatorController.parseFormBody body).batteryType).1 = false →
        CalculatorController.postEdit oidParam body fc =
          (CalculatorController.Response.render
            ⟨toString oidv, (CalculatorController.parseFormBody body).manufacturer,
              (CalculatorController.parseFormBody body).gradeRaw,
              (CalculatorController.parseFormBody body).batteryTypeRaw⟩
            (some CalculatorController.genericError),
            (CalculatorManager.getCalculatorByOid oidv fc).2) ∧
        (CalculatorManager.getCalculators
          (CalculatorController.postEdit oidParam body fc).2).1 =
          (CalculatorManager.getCalculators fc).1) := by
  refine ⟨fun m g b => ?_, fun s n h => ?_, fun body fc h => ?_,
    fun oidParam body fc oidv hp h => ?_⟩
  · cases g with
    | none => simp [CalculatorController.validateFields]
    | some gv =>
        cases b with
        | none => simp [CalculatorController.validateFields]
        | some bv =>
            by_cases hm : m = ""
            · simp [CalculatorController.validateFields, hm]
            · simp only [CalculatorController.validateFields]
              rw [if_neg hm]
              by_cases hc : (CalculatorController.isIntInRange gv
                  CalculatorController.gradeMin CalculatorController.gradeMax &&
                CalculatorController.isIntInRange bv
                  CalculatorController.batteryMin CalculatorController.batteryMax) = true
              · rw [if_pos hc]
                simp only [CalculatorController.isIntInRange,
                  CalculatorController.gradeMin, CalculatorController.gradeMax,
                  CalculatorController.batteryMin, CalculatorController.batteryMax,
                  Bool.and_eq_true, decide_eq_true_eq] at hc
                exact iff_of_true rfl
                  ⟨hm, ⟨gv, rfl, hc.1.1, hc.1.2⟩, ⟨bv, rfl, hc.2.1, hc.2.2⟩⟩
              · rw [if_neg hc]
                simp only [CalculatorController.isIntInRange,
                  CalculatorController.gradeMin, CalculatorController.gradeMax,
                  CalculatorController.batteryMin, CalculatorController.batteryMax,
                  Bool.and_eq_true, decide_eq_true_eq] at hc
                refine iff_of_false (by simp) ?_
                rintro ⟨-, ⟨gv2, hg2, hg0, hg10⟩, ⟨bv2, hb2, hb1, hb3⟩⟩
                obtain rfl : gv = gv2 := Option.some.inj hg2
                obtain rfl : bv = bv2 := Option.some.inj hb2
                exact hc ⟨⟨hg0, hg10⟩, hb1, hb3⟩
  · by_cases he : jsTrim s = ""
    · simp [CalculatorController.parseIntOfField, he] at h
    · simp only [CalculatorController.parseIntOfField, if_neg he] at h
      cases hj : CalculatorController.jsNumber (jsTrim s) with
      | int k =>
          rw [hj] at h
          simp only [Option.some.injEq] at h
          rw [h]
      | nonInt =>
          rw [hj] at h
          simp at h
      | nan =>
          rw [hj] at h
          simp at h
  · exact CalculatorController.postCreate_reject (Or.inr h)
  · refine ⟨CalculatorController.postEdit_reject hp h, ?_⟩
    rw [CalculatorController.postEdit_reject hp h]
    simp [CalculatorManager.getCalculatorByOid_eq, CalculatorManager.getCalculators_eq,
      FileContent.records_ensure]

/-- Closed instance of C7: the spec scenario — adding oid 7, grade 11,
battery type 2 is rejected by validation before the manager is called,
and an edit with a fractional grade string is likewise rejected. -/
theorem C7_validation_bounds_witness :
    CalculatorController.postCreate
        ⟨some "7", some "Acme", some "11", some "2"⟩ (.array []) =
      (CalculatorController.Response.render ⟨"7", "Acme", "11", "2"⟩
        (some CalculatorController.genericError), .array []) ∧
    (CalculatorManager.getCalculators
        (CalculatorController.postEdit "7" ⟨none, some "Acme", some "2.5", some "2"⟩
          (.array [⟨7, "Acme", 5, 2⟩])).2).1 =
      (CalculatorManager.getCalculators (.array [⟨7, "Acme", 5, 2⟩])).1 := by
  constructor
  · have := C7_validation_bounds.2.2.1 ⟨some "7", some "Acme", some "11", some "2"⟩
      (.array []) (by decide)
    simpa using this
  · exact (C7_validation_bounds.2.2.2 "7" ⟨none, some "Acme", some "2.5", some "2"⟩
      (.array [⟨7, "Acme", 5, 2⟩]) 7 (by decide) (by decide)).2

/-- C3 counterexample: a rejected calculator submission (grade 11 out of
range) whose manufacturer was submitted as " A " is re-rendered with the
trimmed manufacturer "A", not the original raw value — the failure result
does not carry the raw, untrimmed values of every field. -/
theorem C3_raw_redisplay_counterexample :
    (CalculatorController.postCreate
        ⟨some "1", some " A ", some "11", some "2"⟩ (.array [])).1 =
      CalculatorController.Response.render ⟨"1", "A", "11", "2"⟩
        (some CalculatorController.genericError) ∧
    "A" ≠ " A " := by
  decide

/-- C3 amended: for every submission the validator rejects, the failure
result carries the original raw values of the oid, grade and batteryType
fields but the trimmed manufacturer (calculator controller), and the
trimmed title and body (note controller); the collection is untouched. -/
theorem C3_raw_redisplay_amended :
    (∀ (body : CalculatorController.CalculatorFormBody) (fc : FileContent Calculator),
        (CalculatorController.parseIntOfField body.oid = none ∨
          (CalculatorController.validateFields
            (CalculatorController.parseFormBody body).manufacturer
            (CalculatorController.parseFormBody body).grade
            (CalculatorController.parseFormBody body).batteryType).1 = false) →
        CalculatorController.postCreate body fc =
          (CalculatorController.Response.render
            ⟨body.oid.getD "", jsTrim (body.manufacturer.getD ""),
              body.grade.getD "", body.batteryType.getD ""⟩
            (some CalculatorController.genericError), fc)) ∧
    (∀ (nb : NoteController.NoteFormBody) (fc : FileContent Note),
        (jsTrim (nb.title.getD "") = "" ∨ jsTrim (nb.body.getD "") = "") →
        NoteController.postCreate nb fc =
          (NoteController.Response.render (jsTrim (nb.title.getD ""))
            (jsTrim (nb.body.getD ""))
            (some "Both title and body are required."), fc)) := by
  constructor
  · intro body fc h
    have h2 : (CalculatorController.parseFormBody body).oid = none ∨
        (CalculatorController.validateFields
          (CalculatorController.parseFormBody body).manufacturer
          (CalculatorController.parseFormBody body).grade
          (CalculatorController.parseFormBody body).batteryType).1 = false := h
    rw [CalculatorController.postCreate_reject h2]
    have hman : (CalculatorController.parseFormBody body).manufacturer =
        jsTrim (body.manufacturer.getD "") := option_map_jsTrim_getD body.manufacturer
    rw [hman]
    simp [CalculatorController.parseFormBody]
  · intro nb fc h
    simp only [NoteController.postCreate, option_map_jsTrim_getD]
    rcases h with h | h <;> simp [h]

/-- Closed instance of the amended C3: a concrete calculator rejection
echoes raw numeric fields and the trimmed manufacturer; a concrete note
rejection echoes the trimmed title and body. -/
theorem C3_raw_redisplay_amended_witness :
    CalculatorController.postCreate ⟨some " 03 ", some "\tAcme Inc  ", some "x", none⟩
        (.array []) =
      (CalculatorController.Response.render ⟨" 03 ", "Acme Inc", "x", ""⟩
        (some CalculatorController.genericError), .array []) ∧
    NoteController.postCreate ⟨some "  My title ", some "   "⟩ (.array []) =
      (NoteController.Response.render "My title" ""
        (some "Both title and body are required."), .array []) := by
  constructor
  · have := C3_raw_redisplay_amended.1 ⟨some " 03 ", some "\tAcme Inc  ", some "x", none⟩
      (.array []) (Or.inr (by decide))
    simpa using this
  · have := C3_raw_redisplay_amended.2 ⟨some "  My title ", some "   "⟩ (.array [])
      (Or.inr (by decide))
    simpa using this

/-! Codec correctness: decimal numerals. -/

namespace Codec

theorem natDigitsAux_eq (n : Nat) : ∀ (fuel : Nat) (acc : List Char), n < fuel →
    natDigitsAux fuel n acc = natDigits n ++ acc := by
  induction n using Nat.strong_induction_on with
  | _ n ih =>
      intro fuel acc hf
      match fuel with
      | fuel + 1 =>
        by_cases h10 : n < 10
        · simp [natDigitsAux, natDigits, h10]
        · have hrec : n / 10 < n := Nat.div_lt_self (by omega) (by omega)
          have hstep : ∀ a, natDigitsAux (n + 1) n a =
              natDigitsAux n (n / 10) (hexDigitChar (n % 10) :: a) := by
            intro a
            rw [natDigitsAux]
            simp [h10]
          have hnd : natDigits n = natDigits (n / 10) ++ [hexDigitChar (n % 10)] := by
            rw [show natDigits n = natDigitsAux (n + 1) n [] from rfl, hstep,
              ih (n / 10) hrec n (hexDigitChar (n % 10) :: []) (by omega)]
          rw [natDigitsAux]
          simp only [h10, if_false]
          rw [ih (n / 10) hrec fuel (hexDigitChar (n % 10) :: acc) (by omega)]
          rw [hnd, List.append_assoc]
          rfl

theorem natDigits_eq (n : Nat) :
    natDigits n = if n < 10 then [hexDigitChar n]
      else natDigits (n / 10) ++ [hexDigitChar (n % 10)] := by
  by_cases h10 : n < 10
  · simp [natDigits, natDigitsAux, h10]
  · have hrec : n / 10 < n := Nat.div_lt_self (by omega) (by omega)
    rw [natDigits, natDigitsAux]
    simp only [h10, if_false]
    rw [natDigitsAux_eq (n / 10) n _ (by omega)]

theorem hexDigitChar_isDigit {k : Nat} (h : k < 10) : (hexDigitChar k).isDigit = true := by
  interval_cases k <;> decide

theorem hexDigitChar_toNat {k : Nat} (h : k < 10) : (hexDigitChar k).toNat = 48 + k := by
  interval_cases k <;> decide

theorem natDigits_all_digit (n : Nat) : ∀ c ∈ natDigits n, c.isDigit = true := by
  induction n using Nat.strong_induction_on with
  | _ n ih =>
      intro c hc
      rw [natDigits_eq] at hc
      by_cases h10 : n < 10
      · rw [if_pos h10] at hc
        simp only [List.mem_singleton] at hc
        subst hc
        exact hexDigitChar_isDigit h10
      · rw [if_neg h10] at hc
        rcases List.mem_append.mp hc with hc | hc
        · exact ih (n / 10) (Nat.div_lt_self (by omega) (by omega)) c hc
        · simp only [List.mem_singleton] at hc
          subst hc
          exact hexDigitChar_isDigit (Nat.mod_lt _ (by omega))

theorem natDigits_ne_nil (n : Nat) : natDigits n ≠ [] := by
  rw [natDigits_eq]
  by_cases h10 : n < 10 <;> simp [h10]

theorem foldl_natDigits (n : Nat) : ∀ acc : Nat,
    (natDigits n).foldl (fun a c => 10 * a + (c.toNat - 48)) acc =
      acc * 10 ^ (natDigits n).length + n := by
  induction n using Nat.strong_induction_on with
  | _ n ih =>
      intro acc
      rw [natDigits_eq]
      by_cases h10 : n < 10
      · rw [if_pos h10]
        simp only [List.foldl_cons, List.foldl_nil, List.length_singleton, pow_one]
        rw [hexDigitChar_toNat h10]
        omega
      · rw [if_neg h10]
        rw [List.foldl_append]
        rw [ih (n / 10) (Nat.div_lt_self (by omega) (by omega)) acc]
        simp only [List.foldl_cons, List.foldl_nil, List.length_append,
          List.length_singleton]
        rw [hexDigitChar_toNat (Nat.mod_lt _ (by omega))]
        rw [pow_succ, ← Nat.mul_assoc]
        omega

theorem parseNatAux_digits (ds : List Char) (h : ∀ c ∈ ds, c.isDigit = true) :
    ∀ (r : List Char) (acc : Nat), parseNatAux (ds ++ r) acc =
      parseNatAux r (ds.foldl (fun a c => 10 * a + (c.toNat - 48)) acc) := by
  induction ds with
  | nil => intro r acc; rfl
  | cons c cs ih =>
      intro r acc
      have hc : c.isDigit = true := h c (List.mem_cons_self c cs)
      rw [List.cons_append, parseNatAux]
      simp only [hc, if_true]
      rw [ih (fun x hx => h x (List.mem_cons_of_mem c hx)) r]
      rfl

theorem parseNatAux_stop (c : Char) (r : List Char) (acc : Nat)
    (hc : c.isDigit = false) : parseNatAux (c :: r) acc = (acc, c :: r) := by
  rw [parseNatAux]
  simp [hc]

theorem parseIntChars_append (n : Int) (c : Char) (r : List Char)
    (hc : c.isDigit = false) :
    parseIntChars (intChars n ++ (c :: r)) = some (n, c :: r) := by
  by_cases hn : n < 0
  · have hint : intChars n = '-' :: natDigits n.natAbs := by
      simp [intChars, hn]
    rw [hint]
    obtain ⟨d, ds, hds⟩ : ∃ d ds, natDigits n.natAbs = d :: ds := by
      cases hnd : natDigits n.natAbs with
      | nil => exact absurd hnd (natDigits_ne_nil _)
      | cons d ds => exact ⟨d, ds, rfl⟩
    have hdd : d.isDigit = true := by
      have := natDigits_all_digit n.natAbs d
      rw [hds] at this
      exact this (List.mem_cons_self d ds)
    rw [List.cons_append, parseIntChars.eq_def]
    simp only [if_pos rfl]
    rw [hds, List.cons_append]
    simp only [hdd, if_true]
    rw [← List.cons_append, ← hds]
    rw [parseNatAux_digits _ (natDigits_all_digit _) (c :: r) 0]
    rw [parseNatAux_stop c r _ hc]
    rw [foldl_natDigits]
    simp only [Nat.zero_mul, Nat.zero_add]
    have : -((n.natAbs : Nat) : Int) = n := by omega
    rw [this]
  · have hint : intChars n = natDigits n.toNat := by
      simp [intChars, hn]
    rw [hint]
    obtain ⟨d, ds, hds⟩ : ∃ d ds, natDigits n.toNat = d :: ds := by
      cases hnd : natDigits n.toNat with
      | nil => exact absurd hnd (natDigits_ne_nil _)
      | cons d ds => exact ⟨d, ds, rfl⟩
    have hdd : d.isDigit = true := by
      have := natDigits_all_digit n.toNat d
      rw [hds] at this
      exact this (List.mem_cons_self d ds)
    have hdm : d ≠ '-' := by
      intro hdm
      rw [hdm] at hdd
      exact absurd hdd (by decide)
    rw [hds, List.cons_append, parseIntChars.eq_def]
    simp only [hdm, if_false, hdd, if_true]
    rw [← List.cons_append, ← hds]
    rw [parseNatAux_digits _ (natDigits_all_digit _) (c :: r) 0]
    rw [parseNatAux_stop c r _ hc]
    rw [foldl_natDigits]
    simp only [Nat.zero_mul, Nat.zero_add]
    have : ((n.toNat : Nat) : Int) = n := by omega
    rw [this]

theorem dropLit_append (p r : List Char) : dropLit p (p ++ r) = some r := by
  induction p with
  | nil => rfl
  | cons c cs ih =>
      rw [List.cons_append, dropLit]
      simp [ih]

end Codec

/-! Codec correctness: JSON string literals. -/

namespace Codec

theorem hexVal_hexDigitChar {k : Nat} (h : k < 16) : hexVal (hexDigitChar k) = some k := by
  interval_cases k <;> decide

theorem parseStrAux_quote (cs acc : List Char) :
    parseStrAux ('\"' :: cs) acc = some (acc.reverse, cs) := by
  rw [parseStrAux.eq_def]
  simp

theorem parseStrAux_esc_quote (cs acc : List Char) :
    parseStrAux ('\\' :: '\"' :: cs) acc = parseStrAux cs ('\"' :: acc) := by
  rw [parseStrAux.eq_def]
  simp

theorem parseStrAux_esc_back (cs acc : List Char) :
    parseStrAux ('\\' :: '\\' :: cs) acc = parseStrAux cs ('\\' :: acc) := by
  rw [parseStrAux.eq_def]
  simp

theorem parseStrAux_esc_b (cs acc : List Char) :
    parseStrAux ('\\' :: 'b' :: cs) acc = parseStrAux cs (Char.ofNat 8 :: acc) := by
  rw [parseStrAux.eq_def]
  simp

theorem parseStrAux_esc_f (cs acc : List Char) :
    parseStrAux ('\\' :: 'f' :: cs) acc = parseStrAux cs (Char.ofNat 12 :: acc) := by
  rw [parseStrAux.eq_def]
  simp

theorem parseStrAux_esc_n (cs acc : List Char) :
    parseStrAux ('\\' :: 'n' :: cs) acc = parseStrAux cs ('\n' :: acc) := by
  rw [parseStrAux.eq_def]
  simp

theorem parseStrAux_esc_r (cs acc : List Char) :
    parseStrAux ('\\' :: 'r' :: cs) acc = parseStrAux cs (Char.ofNat 13 :: acc) := by
  rw [parseStrAux.eq_def]
  simp

theorem parseStrAux_esc_t (cs acc : List Char) :
    parseStrAux ('\\' :: 't' :: cs) acc = parseStrAux cs ('\t' :: acc) := by
  rw [parseStrAux.eq_def]
  simp

theorem parseStrAux_esc_u (h1 h2 h3 h4 : Char) (v1 v2 v3 v4 : Nat)
    (e1 : hexVal h1 = some v1) (e2 : hexVal h2 = some v2)
    (e3 : hexVal h3 = some v3) (e4 : hexVal h4 = some v4) (cs acc : List Char) :
    parseStrAux ('\\' :: 'u' :: h1 :: h2 :: h3 :: h4 :: cs) acc =
      parseStrAux cs (Char.ofNat (((v1 * 16 + v2) * 16 + v3) * 16 + v4) :: acc) := by
  rw [parseStrAux.eq_def]
  simp [e1, e2, e3, e4]

theorem parseStrAux_plain (c : Char) (hq : ¬c = '\"') (hb : ¬c = '\\')
    (cs acc : List Char) :
    parseStrAux (c :: cs) acc = parseStrAux cs (c :: acc) := by
  rw [parseStrAux.eq_def]
  simp [hq, hb]

theorem parseStrAux_escape (s : List Char) : ∀ (acc r : List Char),
    parseStrAux (escapeList s ++ '\"' :: r) acc = some (acc.reverse ++ s, r) := by
  induction s with
  | nil =>
      intro acc r
      simp [escapeList, parseStrAux_quote]
  | cons c cs ih =>
      intro acc r
      have hesc : escapeList (c :: cs) = escapeChar c ++ escapeList cs := by
        simp [escapeList]
      rw [hesc, List.append_assoc]
      by_cases h1 : c = '\"'
      · subst h1
        rw [show escapeChar '\"' = ['\\', '\"'] from rfl]
        rw [show (['\\', '\"'] : List Char) ++ (escapeList cs ++ '\"' :: r) =
          '\\' :: '\"' :: (escapeList cs ++ '\"' :: r) from rfl]
        rw [parseStrAux_esc_quote, ih]
        simp
      · by_cases h2 : c = '\\'
        · subst h2
          rw [show escapeChar '\\' = ['\\', '\\'] from rfl]
          rw [show (['\\', '\\'] : List Char) ++ (escapeList cs ++ '\"' :: r) =
            '\\' :: '\\' :: (escapeList cs ++ '\"' :: r) from rfl]
          rw [parseStrAux_esc_back, ih]
          simp
        · by_cases h3 : c.toNat = 8
          · have he : escapeChar c = ['\\', 'b'] := by
              simp [escapeChar, h1, h2, h3]
            have hc : Char.ofNat 8 = c := by
              rw [← h3]
              exact Char.ofNat_toNat c
            rw [he]
            rw [show (['\\', 'b'] : List Char) ++ (escapeList cs ++ '\"' :: r) =
              '\\' :: 'b' :: (escapeList cs ++ '\"' :: r) from rfl]
            rw [parseStrAux_esc_b, hc, ih]
            simp
          · by_cases h4 : c.toNat = 12
            · have he : escapeChar c = ['\\', 'f'] := by
                simp [escapeChar, h1, h2, h3, h4]
              have hc : Char.ofNat 12 = c := by
                rw [← h4]
                exact Char.ofNat_toNat c
              rw [he]
              rw [show (['\\', 'f'] : List Char) ++ (escapeList cs ++ '\"' :: r) =
                '\\' :: 'f' :: (escapeList cs ++ '\"' :: r) from rfl]
              rw [parseStrAux_esc_f, hc, ih]
              simp
            · by_cases h5 : c = '\n'
              · subst h5
                rw [show escapeChar '\n' = ['\\', 'n'] from rfl]
                rw [show (['\\', 'n'] : List Char) ++ (escapeList cs ++ '\"' :: r) =
                  '\\' :: 'n' :: (escapeList cs ++ '\"' :: r) from rfl]
                rw [parseStrAux_esc_n, ih]
                simp
              · by_cases h6 : c.toNat = 13
                · have he : escapeChar c = ['\\', 'r'] := by
                    simp [escapeChar, h1, h2, h3, h4, h5, h6]
                  have hc : Char.ofNat 13 = c := by
                    rw [← h6]
                    exact Char.ofNat_toNat c
                  rw [he]
                  rw [show (['\\', 'r'] : List Char) ++ (escapeList cs ++ '\"' :: r) =
                    '\\' :: 'r' :: (escapeList cs ++ '\"' :: r) from rfl]
                  rw [parseStrAux_esc_r, hc, ih]
                  simp
                · by_cases h7 : c = '\t'
                  · subst h7
                    rw [show escapeChar '\t' = ['\\', 't'] from rfl]
                    rw [show (['\\', 't'] : List Char) ++ (escapeList cs ++ '\"' :: r) =
                      '\\' :: 't' :: (escapeList cs ++ '\"' :: r) from rfl]
                    rw [parseStrAux_esc_t, ih]
                    simp
                  · by_cases h8 : c.toNat < 32
                    · have he : escapeChar c = ['\\', 'u', '0', '0',
                          hexDigitChar (c.toNat / 16), hexDigitChar (c.toNat % 16)] := by
                        simp [escapeChar, h1, h2, h3, h4, h5, h6, h7, h8]
                      rw [he]
                      rw [show (['\\', 'u', '0', '0', hexDigitChar (c.toNat / 16),
                          hexDigitChar (c.toNat % 16)] : List Char) ++
                          (escapeList cs ++ '\"' :: r) =
                        '\\' :: 'u' :: '0' :: '0' :: hexDigitChar (c.toNat / 16) ::
                          hexDigitChar (c.toNat % 16) ::
                          (escapeList cs ++ '\"' :: r) from rfl]
                      rw [parseStrAux_esc_u '0' '0' _ _ 0 0 (c.toNat / 16) (c.toNat % 16)
                        (by decide) (by decide)
                        (hexVal_hexDigitChar (by omega))
                        (hexVal_hexDigitChar (by omega))]
                      have hv : ((0 * 16 + 0) * 16 + c.toNat / 16) * 16 + c.toNat % 16 =
                          c.toNat := by omega
                      rw [hv, Char.ofNat_toNat, ih]
                      simp
                    · have he : escapeChar c = [c] := by
                        simp [escapeChar, h1, h2, h3, h4, h5, h6, h7, h8]
                      rw [he]
                      rw [show ([c] : List Char) ++ (escapeList cs ++ '\"' :: r) =
                        c :: (escapeList cs ++ '\"' :: r) from rfl]
                      rw [parseStrAux_plain c h1 h2, ih]
                      simp

end Codec

/-! Codec correctness: whole records and files. -/

namespace Codec

theorem dropLit_nil (r : List Char) : dropLit [] r = some r := rfl

theorem dropLit_same (c : Char) (p r : List Char) :
    dropLit (c :: p) (c :: r) = dropLit p r := by
  rw [dropLit]
  simp

theorem mk_data_eq (s : String) : String.mk s.data = s := rfl

theorem parseIntChars_comma (n : Int) (r : List Char) :
    parseIntChars (intChars n ++ (',' :: r)) = some (n, ',' :: r) :=
  parseIntChars_append n ',' r (by decide)

theorem parseIntChars_nl (n : Int) (r : List Char) :
    parseIntChars (intChars n ++ ('\n' :: r)) = some (n, '\n' :: r) :=
  parseIntChars_append n '\n' r (by decide)

theorem parseStrAux_escape_nil (s : String) (r : List Char) :
    parseStrAux (escapeList s.data ++ '\x22' :: r) [] = some (s.data, r) := by
  simpa using parseStrAux_escape s.data [] r

theorem parseCalcItem_append (c : Calculator) (r : List Char) :
    parseCalcItem (calcItemChars c ++ r) = some (c, r) := by
  simp only [parseCalcItem, calcItemChars, List.append_assoc, List.cons_append,
    List.nil_append, dropLit_nil, dropLit_same, parseIntChars_comma, parseIntChars_nl,
    parseStrAux_escape_nil, Option.bind_eq_bind, Option.pure_def, Option.some_bind,
    mk_data_eq]

theorem parseNoteItem_append (n : Note) (r : List Char) :
    parseNoteItem (noteItemChars n ++ r) = some (n, r) := by
  simp only [parseNoteItem, noteItemChars, List.append_assoc, List.cons_append,
    List.nil_append, dropLit_nil, dropLit_same, parseStrAux_escape_nil,
    Option.bind_eq_bind, Option.pure_def, Option.some_bind, mk_data_eq]

theorem calcItemChars_ne_nil (c : Calculator) : calcItemChars c ≠ [] := by
  simp [calcItemChars]

theorem noteItemChars_ne_nil (n : Note) : noteItemChars n ≠ [] := by
  simp [noteItemChars]

theorem sepJoin_length_ge (items : List (List Char)) (h : ∀ i ∈ items, i ≠ []) :
    items.length ≤ (sepJoin items).length := by
  induction items with
  | nil => simp [sepJoin]
  | cons x xs ih =>
      cases xs with
      | nil =>
          have hx : x ≠ [] := h x (List.mem_cons_self x [])
          have : 1 ≤ x.length := by
            cases x with
            | nil => exact absurd rfl hx
            | cons a l => simp
          simpa [sepJoin] using this
      | cons y t =>
          have hx : x ≠ [] := h x (List.mem_cons_self x (y :: t))
          have hx1 : 1 ≤ x.length := by
            cases x with
            | nil => exact absurd rfl hx
            | cons a l => simp
          have hrest := ih (fun i hi => h i (List.mem_cons_of_mem x hi))
          have hsep : sepJoin (x :: y :: t) =
              x ++ ',' :: '\n' :: sepJoin (y :: t) := rfl
          rw [hsep]
          simp only [List.length_cons, List.length_append] at *
          omega

theorem parseCalcItemsAux_append (t : List Calculator) : ∀ (x : Calculator) (fuel : Nat),
    t.length < fuel →
    parseCalcItemsAux fuel (sepJoin ((x :: t).map calcItemChars) ++ ['\n', ']']) =
      some (x :: t, ['\n', ']']) := by
  induction t with
  | nil =>
      intro x fuel hf
      match fuel with
      | fuel + 1 =>
        rw [show sepJoin ([x].map calcItemChars) = calcItemChars x from rfl]
        rw [parseCalcItemsAux]
        simp [parseCalcItem_append]
  | cons y t2 ih =>
      intro x fuel hf
      match fuel with
      | fuel + 1 =>
        have hsep : sepJoin ((x :: y :: t2).map calcItemChars) =
            calcItemChars x ++ ',' :: '\n' :: sepJoin ((y :: t2).map calcItemChars) := rfl
        rw [hsep, List.append_assoc, parseCalcItemsAux]
        rw [show (',' :: '\n' :: sepJoin ((y :: t2).map calcItemChars)) ++ ['\n', ']'] =
          ',' :: '\n' :: (sepJoin ((y :: t2).map calcItemChars) ++ ['\n', ']']) from rfl]
        rw [parseCalcItem_append]
        simp only [Option.bind_eq_bind, Option.pure_def, Option.some_bind]
        rw [ih y fuel (by simp at hf ⊢; omega)]
        rfl

theorem parseNoteItemsAux_append (t : List Note) : ∀ (x : Note) (fuel : Nat),
    t.length < fuel →
    parseNoteItemsAux fuel (sepJoin ((x :: t).map noteItemChars) ++ ['\n', ']']) =
      some (x :: t, ['\n', ']']) := by
  induction t with
  | nil =>
      intro x fuel hf
      match fuel with
      | fuel + 1 =>
        rw [show sepJoin ([x].map noteItemChars) = noteItemChars x from rfl]
        rw [parseNoteItemsAux]
        simp [parseNoteItem_append]
  | cons y t2 ih =>
      intro x fuel hf
      match fuel with
      | fuel + 1 =>
        have hsep : sepJoin ((x :: y :: t2).map noteItemChars) =
            noteItemChars x ++ ',' :: '\n' :: sepJoin ((y :: t2).map noteItemChars) := rfl
        rw [hsep, List.append_assoc, parseNoteItemsAux]
        rw [show (',' :: '\n' :: sepJoin ((y :: t2).map noteItemChars)) ++ ['\n', ']'] =
          ',' :: '\n' :: (sepJoin ((y :: t2).map noteItemChars) ++ ['\n', ']']) from rfl]
        rw [parseNoteItem_append]
        simp only [Option.bind_eq_bind, Option.pure_def, Option.some_bind]
        rw [ih y fuel (by simp at hf ⊢; omega)]
        rfl

theorem jsTrim_mk_cons_ne (c : Char) (h : c.isWhitespace = false) (cs : List Char) :
    ¬jsTrim (String.mk (c :: cs)) = "" := by
  intro he
  have hd : (((c :: cs).dropWhile Char.isWhitespace).reverse.dropWhile
      Char.isWhitespace).reverse = [] := congrArg String.data he
  rw [List.dropWhile_cons] at hd
  simp only [h, if_false] at hd
  rw [List.reverse_eq_nil_iff, List.dropWhile_eq_nil_iff] at hd
  have hc := hd c (by simp)
  rw [h] at hc
  cases hc

theorem parseCalcFile_writeAllString (l : List Calculator) :
    parseCalcFile (writeAllString l) = some l := by
  match l with
  | [] => rfl
  | x :: t =>
      rw [show writeAllString (x :: t) = String.mk ('[' :: '\n' ::
        (sepJoin ((x :: t).map calcItemChars) ++ ['\n', ']'])) from rfl]
      rw [parseCalcFile.eq_def]
      simp only []
      have hlen : t.length <
          (sepJoin ((x :: t).map calcItemChars) ++ ['\n', ']']).length + 1 := by
        have hge := sepJoin_length_ge ((x :: t).map calcItemChars) (by
          intro i hi
          obtain ⟨c, _, rfl⟩ := List.mem_map.mp hi
          exact calcItemChars_ne_nil c)
        simp only [List.length_map, List.length_cons, List.length_append] at hge ⊢
        omega
      rw [parseCalcItemsAux_append t x _ hlen]
      rfl

theorem parseNotesFile_saveNotesString (l : List Note) :
    parseNotesFile (saveNotesString l) = some l := by
  match l with
  | [] => rfl
  | x :: t =>
      rw [show saveNotesString (x :: t) = String.mk ('[' :: '\n' ::
        (sepJoin ((x :: t).map noteItemChars) ++ ['\n', ']'])) from rfl]
      rw [parseNotesFile.eq_def]
      simp only []
      have hlen : t.length <
          (sepJoin ((x :: t).map noteItemChars) ++ ['\n', ']']).length + 1 := by
        have hge := sepJoin_length_ge ((x :: t).map noteItemChars) (by
          intro i hi
          obtain ⟨n, _, rfl⟩ := List.mem_map.mp hi
          exact noteItemChars_ne_nil n)
        simp only [List.length_map, List.length_cons, List.length_append] at hge ⊢
        omega
      rw [parseNoteItemsAux_append t x _ hlen]
      rfl

theorem readAllOfRaw_writeAllString (l : List Calculator) :
    readAllOfRaw (some (writeAllString l)) = l := by
  match l with
  | [] => rfl
  | x :: t =>
      have htrim : ¬jsTrim (writeAllString (x :: t)) = "" := by
        rw [show writeAllString (x :: t) = String.mk ('[' :: '\n' ::
          (sepJoin ((x :: t).map calcItemChars) ++ ['\n', ']'])) from rfl]
        exact jsTrim_mk_cons_ne '[' (by decide) _
      rw [readAllOfRaw.eq_def]
      simp only [htrim, if_false]
      rw [parseCalcFile_writeAllString]

theorem loadNotesOfRaw_saveNotesString (l : List Note) :
    loadNotesOfRaw (some (saveNotesString l)) = l := by
  match l with
  | [] => rfl
  | x :: t =>
      have htrim : ¬jsTrim (saveNotesString (x :: t)) = "" := by
        rw [show saveNotesString (x :: t) = String.mk ('[' :: '\n' ::
          (sepJoin ((x :: t).map noteItemChars) ++ ['\n', ']'])) from rfl]
        exact jsTrim_mk_cons_ne '[' (by decide) _
      rw [loadNotesOfRaw.eq_def]
      simp only [htrim, if_false]
      rw [parseNotesFile_saveNotesString]

end Codec

/-- C9: persistence round-trip.  Serializing any collection with the
exact JSON.stringify(·, null, 2) text writeAll/saveNotes produce and then
running the managers' read path on that file text (simulating a process
restart) returns an equal, order-preserving collection — for both record
types, including manufacturers, titles and bodies needing JSON string
escapes and negative or multi-digit numbers. -/
theorem C9_persistence_round_trip :
    (∀ l : List Calculator, Codec.readAllOfRaw (some (Codec.writeAllString l)) = l) ∧
    (∀ l : List Note, Codec.loadNotesOfRaw (some (Codec.saveNotesString l)) = l) :=
  ⟨Codec.readAllOfRaw_writeAllString, Codec.loadNotesOfRaw_saveNotesString⟩
